import Mathlib

/-!
# VS Code debugger transport (`hphp/runtime/ext/vsdebug/transport.cpp`)

A shallow embedding of `DebugTransport`: the message framer
(`tryProcessMessage`), the input pump (`processIncomingMessages`), the
outgoing queue and the output pump (`processOutgoingMessages`), and the
connection lifecycle (`setTransportFd`, `shutdown`).

Bytes (`char`) are natural numbers; `0` is the NUL separator.  A `char*`
buffer of `bufferSize` bytes is a `List Nat` of that length.  `folly::dynamic`
is an abstract type `J`; `folly::parseJson` and `folly::toJson` are parameters.
-/

namespace VSDebug

/-! ## Platform constants -/

/-- Value of `EINTR` in `<errno.h>` (Linux). -/
def EINTR : Int := 4

/-- Value of `POLLIN` in `<poll.h>` (Linux). -/
def POLLIN : Nat := 1

/-! ## Raw memory operations -/

/-- The call `memset(buffer + offset, value, count)`. -/
def memset (buffer : List Nat) (offset value count : Nat) : List Nat :=
  buffer.take offset ++ List.replicate count value ++ buffer.drop (offset + count)

/-- The call `memmove(buffer + dst, buffer + src, len)`: the source bytes are
read before any byte is written. -/
def memmove (buffer : List Nat) (dst src len : Nat) : List Nat :=
  buffer.take dst ++ (buffer.drop src).take len ++ buffer.drop (dst + len)

/-- The block returned by a successful `realloc(buffer, newSize)`: the old
contents up to `newSize`, followed by uninitialised bytes (shown as `0xAA`). -/
def reallocBytes (buffer : List Nat) (newSize : Nat) : List Nat :=
  buffer.take newSize ++ List.replicate (newSize - buffer.length) 0xAA

/-- The NUL-terminated string a `char*` points at: the bytes before the
first NUL. -/
def cstr (buffer : List Nat) : List Nat :=
  buffer.takeWhile (fun c => c != 0)

/-! ## Message framer -/

/-- The scan of `tryProcessMessage`:
`while (currentPos < bufferPos && *currentPos != '\0') currentPos++;`
The first argument bounds the number of iterations; `bufferPos` suffices. -/
def scanLoop (buffer : List Nat) (bufferPos : Nat) : Nat → Nat → Nat
  | 0, currentPos => currentPos
  | fuel + 1, currentPos =>
    if currentPos < bufferPos ∧ buffer.getD currentPos 0 ≠ 0 then
      scanLoop buffer bufferPos fuel (currentPos + 1)
    else
      currentPos

/-- What `tryProcessMessage` leaves behind: its return value, the buffer,
`*bufferPosition` and `*message`. -/
structure ProcessResult (J : Type) where
  success : Bool
  buffer : List Nat
  bufferPosition : Nat
  message : J

/-- The method `DebugTransport::tryProcessMessage`.  A `parseJson` result of
`none` stands for `folly::parseJson` throwing.  The assertion
`bufferPos <= buffer + bufferSize` is `bufferPosition ≤ bufferSize`, which
holds in every state of the input pump (`BufferOk`). -/
def tryProcessMessage {J : Type} (parseJson : List Nat → Option J)
    (buffer : List Nat) (bufferSize bufferPosition : Nat) (message : J) :
    ProcessResult J :=
  let bufferPos := bufferPosition
  let currentPos := scanLoop buffer bufferPos bufferPos 0
  if currentPos < bufferPos ∧ buffer.getD currentPos 0 = 0 then
    let parsed : Bool × J :=
      match parseJson (cstr buffer) with
      | some m => (true, m)
      | none => (false, message)
    let currentPos := currentPos + 1
    if currentPos < bufferPos then
      let len := bufferPos - currentPos
      let moved := memmove buffer 0 currentPos len
      { success := parsed.1, buffer := memset moved len 0 (bufferSize - len),
        bufferPosition := len, message := parsed.2 }
    else
      { success := parsed.1, buffer := memset buffer 0 0 bufferSize,
        bufferPosition := 0, message := parsed.2 }
  else
    { success := false, buffer := buffer, bufferPosition := bufferPosition,
      message := message }

/-! ## Input pump -/

/-- What the input thread needs from outside `transport.cpp`. -/
structure Env (J : Type) where
  /-- The constant `ReadBufferDefaultSize` of `transport.h`. -/
  ReadBufferDefaultSize : Nat
  /-- The function `folly::parseJson`; `none` when it throws. -/
  parseJson : List Nat → Option J
  /-- A default-constructed `folly::dynamic`. -/
  nullDynamic : J
  /-- Whether `realloc` to the given size returns a non-null block. -/
  reallocOk : Nat → Bool

/-- Local variables of `processIncomingMessages`, the calls made to
`Debugger::onClientMessage` so far, and the bytes the peer has sent that
`recv` has not returned yet. -/
structure InputPump (J : Type) where
  buffer : List Nat
  bufferNull : Bool
  bufferSize : Nat
  bufferPosition : Nat
  delivered : List J
  wire : List Nat

/-- What the operating system answers during one pass of the loop body:
the return value of `poll`, the `revents` of both descriptors, and the
outcome of `recv`.  A positive `recvRet` is the number of bytes ready for
reading; `recv` returns at most the `readSize` it was offered. -/
structure Event where
  pollRet : Int
  pollErrno : Int
  abortRevents : Nat
  transportRevents : Nat
  recvRet : Int
  recvErrno : Int

/-- The event "`n` bytes are ready on the transport". -/
def Event.data (n : Nat) : Event :=
  { pollRet := 1, pollErrno := 0, abortRevents := 0, transportRevents := POLLIN,
    recvRet := n, recvErrno := 0 }

/-- The state at the start of `processIncomingMessages`. -/
def InputPump.init {J : Type} (wire : List Nat) : InputPump J :=
  { buffer := [], bufferNull := true, bufferSize := 0, bufferPosition := 0,
    delivered := [], wire := wire }

/-- The inner loop
`while (bufferPosition > 0 && tryProcessMessage(...)) onClientMessage(message);`
Every successful call lowers `bufferPosition`, so `bufferPosition` rounds
suffice. -/
def drainLoop {J : Type} (env : Env J) : Nat → InputPump J → J → InputPump J
  | 0, p, _ => p
  | fuel + 1, p, message =>
    if 0 < p.bufferPosition then
      let r := tryProcessMessage env.parseJson p.buffer p.bufferSize p.bufferPosition message
      if r.success then
        drainLoop env fuel
          { p with buffer := r.buffer, bufferPosition := r.bufferPosition,
                   delivered := p.delivered ++ [r.message] } r.message
      else
        { p with buffer := r.buffer, bufferPosition := r.bufferPosition }
    else
      p

/-- The block `if (bufferPosition == bufferSize) { ... }`; `none` is the
out-of-memory `break`. -/
def growBuffer {J : Type} (env : Env J) (p : InputPump J) : Option (InputPump J) :=
  if p.bufferPosition = p.bufferSize then
    let newSize := if p.bufferNull then env.ReadBufferDefaultSize else p.bufferSize * 2
    if env.reallocOk newSize then
      some { p with
        buffer := memset (reallocBytes p.buffer newSize) p.bufferSize 0 (newSize - p.bufferSize),
        bufferNull := false,
        bufferSize := newSize }
    else
      none
  else
    some p

/-- The call `recv(fd, &buffer[bufferPosition], readSize, 0)`: its return
value and the bytes it stored. -/
def recv (wire : List Nat) (readSize : Nat) (ev : Event) : Int × List Nat :=
  if ev.recvRet ≤ 0 then
    (ev.recvRet, [])
  else
    let data := wire.take (min ev.recvRet.toNat readSize)
    ((data.length : Int), data)

/-- The loop body from `poll` to its end.  The flag is `true` when the loop
goes round again (`continue` or falling off the end) and `false` on `break`. -/
def pollAndReceive {J : Type} (p : InputPump J) (ev : Event) : InputPump J × Bool :=
  if ev.pollRet < 0 then
    if ev.pollRet = -EINTR then (p, true) else (p, false)
  else if ev.abortRevents ≠ 0 then
    (p, false)
  else if ev.transportRevents &&& POLLIN = 0 then
    (p, false)
  else
    let readSize := p.bufferSize - p.bufferPosition
    let r := recv p.wire readSize ev
    if r.1 ≤ 0 then
      if r.1 = -EINTR then (p, true) else (p, false)
    else
      ({ p with
          buffer := p.buffer.take p.bufferPosition ++ r.2
                      ++ p.buffer.drop (p.bufferPosition + r.2.length),
          bufferPosition := p.bufferPosition + r.1.toNat,
          wire := p.wire.drop r.2.length }, true)

/-- The loop body up to `poll`: drain complete messages, then grow a full
buffer.  The flag is `false` on the out-of-memory `break`. -/
def drainAndGrow {J : Type} (env : Env J) (p : InputPump J) : InputPump J × Bool :=
  let drained := drainLoop env p.bufferPosition p env.nullDynamic
  match growBuffer env drained with
  | some grown => (grown, true)
  | none => (drained, false)

/-- How a run of the input thread stands: `exited` once the loop was left,
and the number of `onClientDisconnected` calls the thread has made. -/
structure InputRun (J : Type) where
  pump : InputPump J
  exited : Bool
  disconnects : Nat

/-- The code after the loop: free the buffer, close the abort pipe, call
`onClientDisconnected`. -/
def inputExit {J : Type} (p : InputPump J) : InputRun J :=
  { pump := { p with buffer := [], bufferNull := true }, exited := true, disconnects := 1 }

/-- The `while (true)` loop of `processIncomingMessages` against a finite
list of operating-system answers.  When the list is used up the thread is
blocked in `poll`, having drained and grown the buffer. -/
def inputLoop {J : Type} (env : Env J) : List Event → InputPump J → InputRun J
  | [], p =>
    match drainAndGrow env p with
    | (q, true) => { pump := q, exited := false, disconnects := 0 }
    | (q, false) => inputExit q
  | ev :: rest, p =>
    match drainAndGrow env p with
    | (q, true) =>
      match pollAndReceive q ev with
      | (q', true) => inputLoop env rest q'
      | (q', false) => inputExit q'
    | (q, false) => inputExit q

/-- The method `DebugTransport::processIncomingMessages` for a transport
descriptor `fd`, the inbound byte stream `wire` and the answers `events`. -/
def processIncomingMessages {J : Type} (env : Env J) (fd : Int) (wire : List Nat)
    (events : List Event) : InputRun J :=
  if fd < 0 then
    { pump := InputPump.init wire, exited := true, disconnects := 0 }
  else
    inputLoop env events (InputPump.init wire)

/-- The wire image of a list of messages: each followed by one NUL. -/
def frames : List (List Nat) → List Nat
  | [] => []
  | m :: ms => m ++ 0 :: frames ms

/-- A stand-in for `folly::parseJson` that accepts the text `{}` only and
yields its length. -/
def parseBraces (s : List Nat) : Option Nat :=
  if s = [123, 125] then some 2 else none

/-- An environment with a 8-byte initial buffer and `parseBraces`. -/
def demoEnv : Env Nat :=
  { ReadBufferDefaultSize := 8, parseJson := parseBraces, nullDynamic := 0,
    reallocOk := fun _ => true }

/-! ## Buffer operations, one at a time -/

/-- The three ways the input pump changes its receive buffer. -/
inductive BufferOp where
  | grow
  | receive (ev : Event)
  | extract

/-- One buffer operation: the growth block, the `poll`/`recv` part of the
loop body, or one call of `tryProcessMessage`.  An operation that makes the
loop `break` leaves the buffer as it is. -/
def bufferStep {J : Type} (env : Env J) (p : InputPump J) : BufferOp → InputPump J
  | .grow => (growBuffer env p).getD p
  | .receive ev => (pollAndReceive p ev).1
  | .extract =>
    let r := tryProcessMessage env.parseJson p.buffer p.bufferSize p.bufferPosition
      env.nullDynamic
    { p with buffer := r.buffer, bufferPosition := r.bufferPosition }

/-! ## Outgoing messages -/

/-- The operations of `folly::dynamic` and `folly::toJson` that the transport
uses. -/
structure Folly (J : Type) where
  /-- The value `folly::dynamic::object`. -/
  object : J
  /-- A `folly::dynamic` holding a string. -/
  ofString : List Nat → J
  /-- The assignment `obj[key] = value`. -/
  set : J → List Nat → J → J
  /-- The function `folly::toJson`. -/
  toJson : J → List Nat

/-- Modelled from the spec: the constant `EventTypeOutput` of the protocol
header, the text `output`. -/
def EventTypeOutput : List Nat := [111, 117, 116, 112, 117, 116]

/-- Modelled from the spec: the constant `MessageTypeEvent` of the protocol
header, the text `event`. -/
def MessageTypeEvent : List Nat := [101, 118, 101, 110, 116]

/-- The key `type`. -/
def keyType : List Nat := [116, 121, 112, 101]

/-- The key `event`. -/
def keyEvent : List Nat := [101, 118, 101, 110, 116]

/-- The key `body`. -/
def keyBody : List Nat := [98, 111, 100, 121]

/-- The key `category`. -/
def keyCategory : List Nat := [99, 97, 116, 101, 103, 111, 114, 121]

/-- The key `output`. -/
def keyOutput : List Nat := [111, 117, 116, 112, 117, 116]

/-- The method `DebugTransport::wrapOutgoingMessage`. -/
def wrapOutgoingMessage {J : Type} (folly : Folly J) (message : J)
    (messageType : List Nat) : List Nat :=
  folly.toJson (folly.set message keyType (folly.ofString messageType))

/-- State of the thread running `processOutgoingMessages`. -/
inductive OutputThread where
  /-- Not running. -/
  | idle
  /-- Started, `getTransportFd` not called yet. -/
  | started
  /-- At the top of `while (true)`, before taking `m_outgoingMsgLock`. -/
  | waiting
  /-- In the `for` loop, with these messages of the local copy left. -/
  | sending (messagesToSend : List (List Nat))
  /-- Returned. -/
  | exited
  deriving DecidableEq

/-- State of the thread running `processIncomingMessages`. -/
inductive InputThread (J : Type) where
  /-- Not running. -/
  | idle
  /-- Started, `getTransportFd` not called yet. -/
  | started
  /-- At the top of `while (true)`. -/
  | running (pump : InputPump J)
  /-- Returned. -/
  | exited

/-- The members of `DebugTransport`, its two threads, the connected flag kept
by the debugger, and what surrounds them: the wrapped texts of the
`enqueueOutgoingMessageForClient` calls that have passed the
`clientConnected()` test and not yet reached `push_back`, the bytes the peer
has sent while no input thread was reading, the bytes handed to the `write`
calls that succeeded, in call order, the number of `onClientDisconnected`
calls, and how many of them were made from `processIncomingMessages` and from
`processOutgoingMessages`. -/
structure Transport (J : Type) where
  transportFd : Int
  abortPipeFd : Int × Int
  terminating : Bool
  outgoingMessages : List (List Nat)
  outputThread : OutputThread
  inputThread : InputThread J
  clientConnected : Bool
  inFlight : List (List Nat)
  inbound : List Nat
  written : List Nat
  disconnects : Nat
  inputReports : Nat
  outputReports : Nat

/-- A transport right after construction. -/
def Transport.init {J : Type} : Transport J :=
  { transportFd := -1, abortPipeFd := (-1, -1), terminating := false,
    outgoingMessages := [], outputThread := .idle, inputThread := .idle,
    clientConnected := false, inFlight := [], inbound := [], written := [],
    disconnects := 0, inputReports := 0, outputReports := 0 }

/-- Modelled from the spec: `Debugger::setClientConnected`, the collaborator's
record of whether a client is connected, which `clientConnected()` reads. -/
def setClientConnected {J : Type} (connected : Bool) (t : Transport J) : Transport J :=
  { t with clientConnected := connected }

/-- The method `DebugTransport::onClientDisconnected`. -/
def onClientDisconnected {J : Type} (t : Transport J) : Transport J :=
  setClientConnected false { t with disconnects := t.disconnects + 1 }

/-- The method `DebugTransport::setTransportFd`; `pipe` is what `pipe()`
stored, `none` when it failed.  The result `none` is a failed assertion. -/
def setTransportFd {J : Type} (fd : Int) (pipe : Option (Int × Int)) (t : Transport J) :
    Option (Transport J) :=
  if t.transportFd < 0 ∧ t.abortPipeFd = (-1, -1) then
    match pipe with
    | none => none
    | some fds =>
      some { t with abortPipeFd := fds, transportFd := fd, terminating := false,
                    inputThread := .started, outputThread := .started }
  else
    none

/-- The method `DebugTransport::shutdownInputThread`. -/
def shutdownInputThread {J : Type} (t : Transport J) : Transport J :=
  { t with abortPipeFd := (t.abortPipeFd.1, -1) }

/-- The method `DebugTransport::shutdownOutputThread`. -/
def shutdownOutputThread {J : Type} (t : Transport J) : Transport J :=
  { t with terminating := true, outgoingMessages := [] }

/-- The first part of `enqueueOutgoingMessageForClient`, outside
`m_outgoingMsgLock`: the `clientConnected()` test and the wrapping.  A call
that passes the test is in flight until its `push_back`. -/
def enqueueTest {J : Type} (folly : Folly J) (message : J) (messageType : List Nat)
    (t : Transport J) : Transport J :=
  if !t.clientConnected then
    t
  else
    let wrapped := wrapOutgoingMessage folly message messageType
    { t with inFlight := t.inFlight ++ [wrapped] }

/-- The second part of `enqueueOutgoingMessageForClient`, under
`m_outgoingMsgLock`: the `push_back` of the in-flight call number `call`. -/
def enqueuePush {J : Type} (call : Nat) (t : Transport J) : Transport J :=
  match t.inFlight[call]? with
  | some wrapped =>
    { t with outgoingMessages := t.outgoingMessages ++ [wrapped],
             inFlight := t.inFlight.eraseIdx call }
  | none => t

/-- The method `DebugTransport::enqueueOutgoingMessageForClient`, when no step
of another thread falls between its test and its `push_back`. -/
def enqueueOutgoingMessageForClient {J : Type} (folly : Folly J) (message : J)
    (messageType : List Nat) (t : Transport J) : Transport J :=
  if !t.clientConnected then
    t
  else
    let wrapped := wrapOutgoingMessage folly message messageType
    { t with outgoingMessages := t.outgoingMessages ++ [wrapped] }

/-- The method `DebugTransport::enqueueOutgoingEventMessage`. -/
def enqueueOutgoingEventMessage {J : Type} (folly : Folly J) (message : J)
    (eventType : List Nat) (t : Transport J) : Transport J :=
  let eventMessage := folly.object
  let eventMessage := folly.set eventMessage keyEvent (folly.ofString eventType)
  let eventMessage := folly.set eventMessage keyBody message
  enqueueOutgoingMessageForClient folly eventMessage MessageTypeEvent t

/-- The method `DebugTransport::enqueueOutgoingUserMessage`. -/
def enqueueOutgoingUserMessage {J : Type} (folly : Folly J) (message level : List Nat)
    (t : Transport J) : Transport J :=
  let userMessage := folly.object
  let userMessage := folly.set userMessage keyCategory (folly.ofString level)
  let userMessage := folly.set userMessage keyOutput (folly.ofString message)
  enqueueOutgoingEventMessage folly userMessage EventTypeOutput t

/-- One step of the thread running `processOutgoingMessages`: the descriptor
check, the critical section that copies and clears the queue, or one `write`
(`writeOk` tells whether `write` returned a non-negative value; a successful
write transfers the string and its terminating NUL). -/
def outputStep {J : Type} (writeOk : Bool) (t : Transport J) : Transport J :=
  match t.outputThread with
  | .idle => t
  | .exited => t
  | .started =>
    if t.transportFd < 0 then { t with outputThread := .exited }
    else { t with outputThread := .waiting }
  | .waiting =>
    if t.terminating then { t with outputThread := .exited }
    else if t.outgoingMessages.length = 0 then t
    else { t with outputThread := .sending t.outgoingMessages, outgoingMessages := [] }
  | .sending [] => { t with outputThread := .waiting }
  | .sending (output :: rest) =>
    if writeOk then
      { t with written := t.written ++ (cstr output ++ [0]), outputThread := .sending rest }
    else
      onClientDisconnected
        { t with outputThread := .exited, outputReports := t.outputReports + 1 }

/-- The end of `processIncomingMessages` inside the transport: close the read
end of the abort pipe and call `onClientDisconnected`. -/
def inputThreadExit {J : Type} (t : Transport J) : Transport J :=
  onClientDisconnected
    { t with abortPipeFd := (-1, t.abortPipeFd.2), inputThread := .exited,
             inputReports := t.inputReports + 1 }

/-- One step of the thread running `processIncomingMessages`: the descriptor
check, after which the thread reads the bytes the peer has sent so far and
will send, or one pass of the loop body against the answer `ev`. -/
def inputStep {J : Type} (env : Env J) (ev : Event) (t : Transport J) : Transport J :=
  match t.inputThread with
  | .idle => t
  | .exited => t
  | .started =>
    if t.transportFd < 0 then { t with inputThread := .exited }
    else { t with inputThread := .running (InputPump.init t.inbound), inbound := [] }
  | .running p =>
    match drainAndGrow env p with
    | (q, true) =>
      match pollAndReceive q ev with
      | (q', true) => { t with inputThread := .running q' }
      | (_, false) => inputThreadExit t
    | (_, false) => inputThreadExit t

/-- The peer sends bytes: they join the stream the input thread reads, or
wait in the connection for an input thread to read them. -/
def peerSends {J : Type} (bytes : List Nat) (t : Transport J) : Transport J :=
  match t.inputThread with
  | .running p => { t with inputThread := .running { p with wire := p.wire ++ bytes } }
  | _ => { t with inbound := t.inbound ++ bytes }

/-- The end of `DebugTransport::shutdown`: once both threads have returned,
the joins complete and the descriptor is closed, unread bytes with it. -/
def shutdownFinish {J : Type} (t : Transport J) : Transport J :=
  match t.inputThread, t.outputThread with
  | .exited, .exited =>
    { t with inputThread := .idle, outputThread := .idle, transportFd := -1,
             inbound := [] }
  | _, _ => t

/-- The atomic steps of a transport and its surroundings.  A call of
`enqueueOutgoingMessageForClient` is either one `enqueue` step, or an
`enqueueTest` step and later an `enqueuePush` step, with steps of other
threads between them. -/
inductive Action (J : Type) where
  | setTransportFd (fd : Int) (pipe : Option (Int × Int))
  | setClientConnected (connected : Bool)
  | enqueue (message : J) (messageType : List Nat)
  | enqueueTest (message : J) (messageType : List Nat)
  | enqueuePush (call : Nat)
  | outputStep (writeOk : Bool)
  | inputStep (ev : Event)
  | peerSends (bytes : List Nat)
  | shutdownInputThread
  | shutdownOutputThread
  | shutdownFinish

/-- The effect of one action; `none` is a failed assertion. -/
def step {J : Type} (env : Env J) (folly : Folly J) (t : Transport J) :
    Action J → Option (Transport J)
  | .setTransportFd fd pipe => setTransportFd fd pipe t
  | .setClientConnected connected => some (setClientConnected connected t)
  | .enqueue message messageType =>
    some (enqueueOutgoingMessageForClient folly message messageType t)
  | .enqueueTest message messageType => some (enqueueTest folly message messageType t)
  | .enqueuePush call => some (enqueuePush call t)
  | .outputStep writeOk => some (outputStep writeOk t)
  | .inputStep ev => some (inputStep env ev t)
  | .peerSends bytes => some (peerSends bytes t)
  | .shutdownInputThread => some (shutdownInputThread t)
  | .shutdownOutputThread => some (shutdownOutputThread t)
  | .shutdownFinish => some (shutdownFinish t)

/-- The effect of a schedule of actions. -/
def run {J : Type} (env : Env J) (folly : Folly J) :
    List (Action J) → Transport J → Option (Transport J)
  | [], t => some t
  | a :: rest, t =>
    match step env folly t a with
    | some t' => run env folly rest t'
    | none => none

/-- A serializer stand-in: the value itself as one byte. -/
def demoFolly : Folly Nat :=
  { object := 1, ofString := fun s => s.length + 1, set := fun o _ v => o + v,
    toJson := fun j => [j + 1] }

/-- The event "the peer hung up". -/
def Event.hangup : Event :=
  { pollRet := 1, pollErrno := 0, abortRevents := 0, transportRevents := 16,
    recvRet := 0, recvErrno := 0 }

/-- The event "the abort pipe is readable". -/
def Event.abort : Event :=
  { pollRet := 1, pollErrno := 0, abortRevents := POLLIN, transportRevents := 0,
    recvRet := 0, recvErrno := 0 }

/-- The event "`poll` was interrupted by a signal". -/
def Event.pollInterrupted : Event :=
  { pollRet := -1, pollErrno := EINTR, abortRevents := 0, transportRevents := 0,
    recvRet := 0, recvErrno := 0 }

/-- The event "`recv` was interrupted by a signal". -/
def Event.recvInterrupted : Event :=
  { pollRet := 1, pollErrno := 0, abortRevents := 0, transportRevents := POLLIN,
    recvRet := -1, recvErrno := EINTR }

/-! ## Invariants used in the proofs -/

/-- The receive buffer is well formed: it has `bufferSize` bytes, the cursor
is inside it, the bytes from the cursor on are zero, and a null buffer has
size zero. -/
def BufferOk {J : Type} (p : InputPump J) : Prop :=
  p.buffer.length = p.bufferSize ∧ p.bufferPosition ≤ p.bufferSize ∧
  p.buffer.drop p.bufferPosition = List.replicate (p.bufferSize - p.bufferPosition) 0 ∧
  (p.bufferNull = true → p.bufferSize = 0)

/-- The pump is in step with the stream `frames msgs`: what it delivered is
the parse of a prefix `done` of the messages, and the unread part of the
buffer followed by the bytes still on the wire is the frames of the rest. -/
def Synced {J : Type} (env : Env J) (msgs : List (List Nat)) (p : InputPump J) : Prop :=
  ∃ done rest, msgs = done ++ rest ∧
    p.delivered.map some = done.map env.parseJson ∧
    p.buffer.take p.bufferPosition ++ p.wire = frames rest

/-- What is known when the loop is left or blocks in `poll`: the delivered
payloads are the parse of a prefix of the messages, and of all of them once
no byte is left on the wire. -/
def Settled {J : Type} (env : Env J) (msgs : List (List Nat)) (p : InputPump J) : Prop :=
  ∃ done rest, msgs = done ++ rest ∧
    p.delivered.map some = done.map env.parseJson ∧
    (p.wire = [] → rest = [])

/-- A non-null buffer has a positive size. -/
def Allocated {J : Type} (p : InputPump J) : Prop :=
  p.bufferNull = false → 0 < p.bufferSize

/-- The concatenation of a list of receive chunks. -/
def joinChunks : List (List Nat) → List Nat
  | [] => []
  | c :: cs => c ++ joinChunks cs

/-- The answers of the operating system when the stream arrives as the given
chunks: for each chunk, as many bytes are ready as the chunk is long. -/
def chunkEvents (chunks : List (List Nat)) : List Event :=
  chunks.map (fun c => Event.data c.length)

/-- Every chunk is non-empty and no larger than the free space
`bufferSize - bufferPosition` that the pump offers to `recv` when the chunk
arrives. -/
def chunksFit {J : Type} (env : Env J) : List (List Nat) → InputPump J → Bool
  | [], _ => true
  | c :: cs, p =>
    let q := (drainAndGrow env p).1
    decide (1 ≤ c.length ∧ c.length ≤ q.bufferSize - q.bufferPosition) &&
      chunksFit env cs (pollAndReceive q (Event.data c.length)).1

/-- An action of a run in which messages are only enqueued and written, every
write succeeding. -/
def Action.isSend {J : Type} : Action J → Bool
  | .enqueue _ _ => true
  | .outputStep true => true
  | _ => false

/-- The wrapped texts of the enqueue calls of a schedule, in call order. -/
def wrappedOf {J : Type} (folly : Folly J) : List (Action J) → List (List Nat)
  | [] => []
  | .enqueue message messageType :: rest =>
    wrapOutgoingMessage folly message messageType :: wrappedOf folly rest
  | _ :: rest => wrappedOf folly rest

/-- The local copy `messagesToSend` of the output thread, as far as it is
still to be written. -/
def Transport.batch {J : Type} (t : Transport J) : List (List Nat) :=
  match t.outputThread with
  | .sending messagesToSend => messagesToSend
  | _ => []

/-- The output pump has drained the queue: the queue is empty and no copied
message waits to be written. -/
def drained {J : Type} (t : Transport J) : Bool :=
  t.outgoingMessages.isEmpty &&
    (match t.outputThread with
      | .waiting => true
      | .sending [] => true
      | _ => false)

/-- The output side during a run without failure or shutdown: the client is
connected, the thread is alive, no text holds a null byte, the bytes
written followed by the frames still held are the frames of `sent`, and no
more texts are held than were sent. -/
def OutputOk {J : Type} (sent : List (List Nat)) (t : Transport J) : Prop :=
  t.clientConnected = true ∧ t.terminating = false ∧ 0 ≤ t.transportFd ∧
  (t.outputThread = .started ∨ t.outputThread = .waiting ∨
    ∃ b, t.outputThread = .sending b) ∧
  (∀ m ∈ t.batch ++ t.outgoingMessages, 0 ∉ m) ∧
  t.written ++ frames (t.batch ++ t.outgoingMessages) = frames sent ∧
  (t.batch ++ t.outgoingMessages).length ≤ sent.length

/-- The number of steps the output thread needs to drain the queue. -/
def stepsToDrain {J : Type} (t : Transport J) : Nat :=
  match t.outputThread with
  | .started => 1 + (if t.outgoingMessages.length = 0 then 0 else 1 + t.outgoingMessages.length)
  | .waiting => if t.outgoingMessages.length = 0 then 0 else 1 + t.outgoingMessages.length
  | .sending b =>
    b.length + (if t.outgoingMessages.length = 0 then 0 else 2 + t.outgoingMessages.length)
  | _ => 0

/-- The action is a call of `setTransportFd`. -/
def Action.isAttach {J : Type} : Action J → Bool
  | .setTransportFd _ _ => true
  | _ => false

/-- The action is a `write` that fails. -/
def Action.isFailedWrite {J : Type} : Action J → Bool
  | .outputStep false => true
  | _ => false

/-- One if the input thread may still call `onClientDisconnected`. -/
def inputPending {J : Type} (t : Transport J) : Nat :=
  match t.inputThread with
  | .started => 1
  | .running _ => 1
  | _ => 0

/-- One if the output thread may still call `onClientDisconnected`. -/
def outputPending {J : Type} (t : Transport J) : Nat :=
  match t.outputThread with
  | .started => 1
  | .waiting => 1
  | .sending _ => 1
  | _ => 0

/-- Along the schedule, no `enqueueOutgoingMessageForClient` call executes
its `push_back` in a state where the termination flag is set. -/
def noPushWhileTerminating {J : Type} (env : Env J) (folly : Folly J) :
    List (Action J) → Transport J → Bool
  | [], _ => true
  | a :: rest, t =>
    (match a with
      | .enqueue _ _ => !(t.terminating && t.clientConnected)
      | .enqueuePush call => !(t.terminating && decide (call < t.inFlight.length))
      | _ => true) &&
    (match step env folly t a with
      | some t' => noPushWhileTerminating env folly rest t'
      | none => true)

/-! ## Facts about the scan -/

theorem scanLoop_spec (buffer : List Nat) (p : Nat) :
    ∀ fuel c, c ≤ p → p - c ≤ fuel →
      c ≤ scanLoop buffer p fuel c ∧ scanLoop buffer p fuel c ≤ p ∧
      (∀ j, c ≤ j → j < scanLoop buffer p fuel c → buffer.getD j 0 ≠ 0) ∧
      (scanLoop buffer p fuel c < p → buffer.getD (scanLoop buffer p fuel c) 0 = 0) := by
  intro fuel
  induction fuel with
  | zero =>
    intro c hc hf
    have hcp : c = p := by omega
    subst hcp
    simp only [scanLoop]
    refine ⟨le_refl _, le_refl _, ?_, ?_⟩
    · intro j h1 h2; omega
    · intro h; omega
  | succ n ih =>
    intro c hc hf
    simp only [scanLoop]
    split
    · rename_i hcond
      obtain ⟨h1, h2, h3, h4⟩ := ih (c + 1) (by omega) (by omega)
      refine ⟨by omega, h2, ?_, h4⟩
      intro j hj1 hj2
      rcases Nat.eq_or_lt_of_le hj1 with h | h
      · subst h; exact hcond.2
      · exact h3 j h hj2
    · rename_i hcond
      refine ⟨le_refl _, hc, ?_, ?_⟩
      · intro j h1 h2; omega
      · intro h
        by_contra hne
        exact hcond ⟨h, hne⟩

theorem scan_first_null (buffer : List Nat) (p k : Nat) (hk : k < p)
    (h0 : buffer.getD k 0 = 0) (hpre : ∀ j, j < k → buffer.getD j 0 ≠ 0) :
    scanLoop buffer p p 0 = k := by
  obtain ⟨_, h2, h3, h4⟩ := scanLoop_spec buffer p p 0 (Nat.zero_le _) (by omega)
  rcases Nat.lt_trichotomy (scanLoop buffer p p 0) k with h | h | h
  · exact absurd (h4 (by omega)) (hpre _ h)
  · exact h
  · exact absurd h0 (h3 k (Nat.zero_le _) h)

theorem scan_no_null (buffer : List Nat) (p : Nat)
    (hpre : ∀ j, j < p → buffer.getD j 0 ≠ 0) :
    scanLoop buffer p p 0 = p := by
  obtain ⟨_, h2, h3, h4⟩ := scanLoop_spec buffer p p 0 (Nat.zero_le _) (by omega)
  rcases Nat.eq_or_lt_of_le h2 with h | h
  · exact h
  · exact absurd (h4 h) (hpre _ h)

theorem cstr_eq_take (buffer : List Nat) (k : Nat) (hk : k < buffer.length)
    (h0 : buffer.getD k 0 = 0) (hpre : ∀ j, j < k → buffer.getD j 0 ≠ 0) :
    cstr buffer = buffer.take k := by
  induction buffer generalizing k with
  | nil => simp at hk
  | cons b bs ih =>
    cases k with
    | zero =>
      simp at h0
      simp [cstr, h0]
    | succ k =>
      have hb : b ≠ 0 := by simpa using hpre 0 (by omega)
      have := ih k (by simpa using hk) (by simpa using h0)
        (fun j hj => by simpa using hpre (j + 1) (by omega))
      simp [cstr, hb] at this ⊢
      exact this

/-! ## Facts about `tryProcessMessage` -/

theorem compact_eq (buffer : List Nat) (size p k : Nat) (hlen : buffer.length = size)
    (hp : p ≤ size) (hk : k + 1 < p) :
    memset (memmove buffer 0 (k + 1) (p - (k + 1))) (p - (k + 1)) 0 (size - (p - (k + 1)))
      = (buffer.drop (k + 1)).take (p - (k + 1))
          ++ List.replicate (size - (p - (k + 1))) 0 := by
  have h1 : ((buffer.drop (k + 1)).take (p - (k + 1))).length = p - (k + 1) := by
    simp [List.length_take, List.length_drop]; omega
  have hM : memmove buffer 0 (k + 1) (p - (k + 1))
      = (buffer.drop (k + 1)).take (p - (k + 1)) ++ buffer.drop (p - (k + 1)) := by
    simp [memmove]
  have hMlen : (memmove buffer 0 (k + 1) (p - (k + 1))).length = size := by
    rw [hM, List.length_append, h1, List.length_drop]; omega
  have htake : (memmove buffer 0 (k + 1) (p - (k + 1))).take (p - (k + 1))
      = (buffer.drop (k + 1)).take (p - (k + 1)) := by
    rw [hM, List.take_append_of_le_length (by omega), List.take_of_length_le (by omega)]
  have hdrop : (memmove buffer 0 (k + 1) (p - (k + 1))).drop
      (p - (k + 1) + (size - (p - (k + 1)))) = [] := by
    apply List.drop_eq_nil_of_le
    omega
  unfold memset
  rw [htake, hdrop, List.append_nil]

theorem clear_eq (buffer : List Nat) (size : Nat) (hlen : buffer.length = size) :
    memset buffer 0 0 size = List.replicate size 0 := by
  simp [memset, ← hlen]

theorem tryProcessMessage_found {J : Type} (parseJson : List Nat → Option J)
    (buffer : List Nat) (size p k : Nat) (msg : J)
    (hlen : buffer.length = size) (hp : p ≤ size) (hk : k < p)
    (h0 : buffer.getD k 0 = 0) (hpre : ∀ j, j < k → buffer.getD j 0 ≠ 0) :
    tryProcessMessage parseJson buffer size p msg =
      { success := (parseJson (buffer.take k)).isSome,
        buffer := (buffer.drop (k + 1)).take (p - (k + 1))
                    ++ List.replicate (size - (p - (k + 1))) 0,
        bufferPosition := p - (k + 1),
        message := (parseJson (buffer.take k)).getD msg } := by
  have hs := scan_first_null buffer p k hk h0 hpre
  have hc := cstr_eq_take buffer k (by omega) h0 hpre
  unfold tryProcessMessage
  simp only [hs, hc, hk, h0, and_self, if_true]
  by_cases hlt : k + 1 < p
  · simp only [hlt, if_true, compact_eq buffer size p k hlen hp hlt]
    cases parseJson (buffer.take k) <;> rfl
  · have hz : p - (k + 1) = 0 := by omega
    simp only [hlt, if_false, clear_eq buffer size hlen, hz, List.take_zero,
      List.nil_append, Nat.sub_zero]
    cases parseJson (buffer.take k) <;> rfl

theorem tryProcessMessage_none {J : Type} (parseJson : List Nat → Option J)
    (buffer : List Nat) (size p : Nat) (msg : J)
    (hpre : ∀ j, j < p → buffer.getD j 0 ≠ 0) :
    tryProcessMessage parseJson buffer size p msg =
      { success := false, buffer := buffer, bufferPosition := p, message := msg } := by
  have hs := scan_no_null buffer p hpre
  unfold tryProcessMessage
  simp [hs]

theorem getD_of_getElem? (buffer : List Nat) (k v : Nat) (h : buffer[k]? = some v) :
    buffer.getD k 0 = v := by
  simp [List.getD, h]

theorem getD_ne_zero_of_getElem? (buffer : List Nat) (j : Nat) (hj : j < buffer.length)
    (h : buffer[j]? ≠ some 0) : buffer.getD j 0 ≠ 0 := by
  intro hz
  apply h
  rw [List.getElem?_eq_getElem hj]
  simp [List.getD, List.getElem?_eq_getElem hj] at hz
  simp [hz]

theorem getElem?_of_getD_zero (buffer : List Nat) (k : Nat) (hk : k < buffer.length)
    (h : buffer.getD k 0 = 0) : buffer[k]? = some 0 := by
  simp [List.getD, List.getElem?_eq_getElem hk] at h
  simp [List.getElem?_eq_getElem hk, h]

theorem scan_found_iff (buffer : List Nat) (p : Nat) :
    (scanLoop buffer p p 0 < p ∧ buffer.getD (scanLoop buffer p p 0) 0 = 0)
      ↔ ∃ k, k < p ∧ buffer.getD k 0 = 0 := by
  obtain ⟨_, h2, h3, h4⟩ := scanLoop_spec buffer p p 0 (Nat.zero_le _) (by omega)
  constructor
  · rintro ⟨h, h0⟩
    exact ⟨_, h, h0⟩
  · rintro ⟨k, hk, h0⟩
    have hlt : scanLoop buffer p p 0 < p := by
      by_contra hge
      exact h3 k (Nat.zero_le _) (by omega) h0
    exact ⟨hlt, h4 hlt⟩

theorem tryProcessMessage_success {J : Type} (parseJson : List Nat → Option J)
    (buffer : List Nat) (size p : Nat) (msg : J) :
    (tryProcessMessage parseJson buffer size p msg).success
      = (decide (∃ k, k < p ∧ buffer.getD k 0 = 0) && (parseJson (cstr buffer)).isSome) := by
  unfold tryProcessMessage
  by_cases h : scanLoop buffer p p 0 < p ∧ buffer.getD (scanLoop buffer p p 0) 0 = 0
  · have hex := (scan_found_iff buffer p).1 h
    simp only [h, and_self, if_true, hex, decide_True, Bool.true_and]
    split <;> cases parseJson (cstr buffer) <;> rfl
  · have hex : ¬ ∃ k, k < p ∧ buffer.getD k 0 = 0 := fun hx => h ((scan_found_iff buffer p).2 hx)
    simp only [h, if_false, hex, decide_False, Bool.false_and]

theorem tryProcessMessage_message {J : Type} (parseJson : List Nat → Option J)
    (buffer : List Nat) (size p : Nat) (msg : J) (hfail : parseJson (cstr buffer) = none) :
    (tryProcessMessage parseJson buffer size p msg).message = msg := by
  unfold tryProcessMessage
  simp only [hfail]
  split
  · split <;> rfl
  · rfl

/-! ## The framer's return value and compaction -/

/-- C4 (as the code has it): for every buffer and write cursor within it,
`tryProcessMessage` returns true exactly when a null byte occurs among the
first `bufferPosition` bytes and the bytes before the first null byte parse;
when they do not parse it returns false and leaves `*message` untouched. -/
theorem tryProcessMessage_true_iff {J : Type} (parseJson : List Nat → Option J)
    (buffer : List Nat) (bufferSize bufferPosition : Nat) (message : J)
    (hpos : bufferPosition ≤ buffer.length) :
    ((tryProcessMessage parseJson buffer bufferSize bufferPosition message).success = true
        ↔ (∃ k, k < bufferPosition ∧ buffer[k]? = some 0)
            ∧ (parseJson (cstr buffer)).isSome = true) ∧
    (parseJson (cstr buffer) = none →
      (tryProcessMessage parseJson buffer bufferSize bufferPosition message).success = false ∧
      (tryProcessMessage parseJson buffer bufferSize bufferPosition message).message
        = message) := by
  have hex : (∃ k, k < bufferPosition ∧ buffer.getD k 0 = 0)
      ↔ ∃ k, k < bufferPosition ∧ buffer[k]? = some 0 := by
    constructor
    · rintro ⟨k, hk, h0⟩
      exact ⟨k, hk, getElem?_of_getD_zero buffer k (by omega) h0⟩
    · rintro ⟨k, hk, h0⟩
      exact ⟨k, hk, getD_of_getElem? buffer k 0 h0⟩
  refine ⟨?_, ?_⟩
  · rw [tryProcessMessage_success, Bool.and_eq_true, decide_eq_true_iff, hex]
  · intro hfail
    refine ⟨?_, tryProcessMessage_message parseJson buffer bufferSize bufferPosition message hfail⟩
    rw [tryProcessMessage_success, hfail]
    simp

/-- Witness for C4: the two-byte buffer `x\0` under `parseBraces`. -/
theorem tryProcessMessage_true_iff_witness :
    (2 ≤ [120, 0].length) ∧
    (((tryProcessMessage parseBraces [120, 0] 2 2 7).success = true
        ↔ (∃ k, k < 2 ∧ [120, 0][k]? = some 0)
            ∧ (parseBraces (cstr [120, 0])).isSome = true) ∧
     (parseBraces (cstr [120, 0]) = none →
      (tryProcessMessage parseBraces [120, 0] 2 2 7).success = false ∧
      (tryProcessMessage parseBraces [120, 0] 2 2 7).message = 7)) :=
  ⟨by decide, tryProcessMessage_true_iff parseBraces [120, 0] 2 2 7 (by decide)⟩

/-- C4 as stated fails: in the buffer `x\0` with the cursor at 2 a null byte
occurs among the first two bytes, yet `tryProcessMessage` returns false,
because `x` does not parse. -/
theorem tryProcessMessage_parse_failure_returns_false :
    (∃ k, k < 2 ∧ [120, 0][k]? = some 0) ∧
    (tryProcessMessage parseBraces [120, 0] 2 2 7).success = false :=
  ⟨⟨1, by decide, by decide⟩, by decide⟩

/-- C5: when the first null byte among the first `position` bytes is at index
`k`, then after `tryProcessMessage`, whatever the parser says, the cursor is
`position - (k + 1)`, byte `i` below the new cursor is old byte `k + 1 + i`,
and every byte from the new cursor up to `size` is zero. -/
theorem tryProcessMessage_compacts {J : Type} (parseJson : List Nat → Option J)
    (buffer : List Nat) (size position k : Nat) (message : J)
    (hlen : buffer.length = size) (hpos : position ≤ size) (hk : k < position)
    (h0 : buffer[k]? = some 0) (hfirst : ∀ j, j < k → buffer[j]? ≠ some 0) :
    (tryProcessMessage parseJson buffer size position message).bufferPosition
        = position - (k + 1) ∧
    (tryProcessMessage parseJson buffer size position message).buffer.length = size ∧
    (∀ i, i < position - (k + 1) →
      (tryProcessMessage parseJson buffer size position message).buffer[i]?
        = buffer[k + 1 + i]?) ∧
    (∀ i, position - (k + 1) ≤ i → i < size →
      (tryProcessMessage parseJson buffer size position message).buffer[i]? = some 0) := by
  rw [tryProcessMessage_found parseJson buffer size position k message hlen hpos hk
    (getD_of_getElem? buffer k 0 h0)
    (fun j hj => getD_ne_zero_of_getElem? buffer j (by omega) (hfirst j hj))]
  have h1 : ((buffer.drop (k + 1)).take (position - (k + 1))).length = position - (k + 1) := by
    simp [List.length_take, List.length_drop]; omega
  refine ⟨rfl, ?_, ?_, ?_⟩
  · simp only [List.length_append, h1, List.length_replicate]; omega
  · intro i hi
    simp only
    rw [List.getElem?_append_left (by omega), List.getElem?_take_of_lt hi, List.getElem?_drop]
  · intro i hi1 hi2
    simp only
    rw [List.getElem?_append_right (by omega), h1, List.getElem?_replicate]
    simp
    omega

/-- Witness for C5: `x\0{}\0` in an 8-byte buffer, cursor 5, first null at 1. -/
theorem tryProcessMessage_compacts_witness :
    ([120, 0, 123, 125, 0, 0, 0, 0].length = 8 ∧ 5 ≤ 8 ∧ 1 < 5) ∧
    ((tryProcessMessage parseBraces [120, 0, 123, 125, 0, 0, 0, 0] 8 5 7).bufferPosition
        = 5 - (1 + 1) ∧
     (tryProcessMessage parseBraces [120, 0, 123, 125, 0, 0, 0, 0] 8 5 7).buffer.length = 8 ∧
     (∀ i, i < 5 - (1 + 1) →
      (tryProcessMessage parseBraces [120, 0, 123, 125, 0, 0, 0, 0] 8 5 7).buffer[i]?
        = [120, 0, 123, 125, 0, 0, 0, 0][1 + 1 + i]?) ∧
     (∀ i, 5 - (1 + 1) ≤ i → i < 8 →
      (tryProcessMessage parseBraces [120, 0, 123, 125, 0, 0, 0, 0] 8 5 7).buffer[i]?
        = some 0)) :=
  ⟨by decide,
   tryProcessMessage_compacts parseBraces [120, 0, 123, 125, 0, 0, 0, 0] 8 5 1 7
     (by decide) (by decide) (by decide) (by decide)
     (fun j hj => by interval_cases j; decide)⟩

/-! ## The receive buffer stays well formed -/

theorem tryProcessMessage_cases {J : Type} (parseJson : List Nat → Option J)
    (buffer : List Nat) (size p : Nat) (msg : J)
    (hlen : buffer.length = size) (hp : p ≤ size) :
    (∃ k, k < p ∧ buffer.getD k 0 = 0 ∧ (∀ j, j < k → buffer.getD j 0 ≠ 0) ∧
      tryProcessMessage parseJson buffer size p msg =
        { success := (parseJson (buffer.take k)).isSome,
          buffer := (buffer.drop (k + 1)).take (p - (k + 1))
                      ++ List.replicate (size - (p - (k + 1))) 0,
          bufferPosition := p - (k + 1),
          message := (parseJson (buffer.take k)).getD msg }) ∨
    ((∀ j, j < p → buffer.getD j 0 ≠ 0) ∧
      tryProcessMessage parseJson buffer size p msg =
        { success := false, buffer := buffer, bufferPosition := p, message := msg }) := by
  obtain ⟨_, h2, h3, h4⟩ := scanLoop_spec buffer p p 0 (Nat.zero_le _) (by omega)
  by_cases hlt : scanLoop buffer p p 0 < p
  · left
    have hpre : ∀ j, j < scanLoop buffer p p 0 → buffer.getD j 0 ≠ 0 :=
      fun j hj => h3 j (Nat.zero_le _) hj
    exact ⟨_, hlt, h4 hlt, hpre,
      tryProcessMessage_found parseJson buffer size p _ msg hlen hp hlt (h4 hlt) hpre⟩
  · right
    have heq : scanLoop buffer p p 0 = p := by omega
    have hpre : ∀ j, j < p → buffer.getD j 0 ≠ 0 :=
      fun j hj => h3 j (Nat.zero_le _) (by omega)
    exact ⟨hpre, tryProcessMessage_none parseJson buffer size p msg hpre⟩

theorem bufferOk_init {J : Type} (wire : List Nat) : BufferOk (InputPump.init wire : InputPump J) := by
  simp [BufferOk, InputPump.init]

theorem bufferOk_extract {J : Type} (parseJson : List Nat → Option J) (p : InputPump J)
    (msg : J) (h : BufferOk p) :
    BufferOk { p with
      buffer := (tryProcessMessage parseJson p.buffer p.bufferSize p.bufferPosition msg).buffer,
      bufferPosition :=
        (tryProcessMessage parseJson p.buffer p.bufferSize p.bufferPosition msg).bufferPosition } := by
  obtain ⟨hlen, hpos, htail, hnull⟩ := h
  rcases tryProcessMessage_cases parseJson p.buffer p.bufferSize p.bufferPosition msg hlen hpos
    with ⟨k, hk, _, _, heq⟩ | ⟨_, heq⟩
  · rw [heq]
    have h1 : ((p.buffer.drop (k + 1)).take (p.bufferPosition - (k + 1))).length
        = p.bufferPosition - (k + 1) := by
      simp [List.length_take, List.length_drop]; omega
    refine ⟨?_, ?_, ?_, hnull⟩
    · simp only [List.length_append, h1, List.length_replicate]; omega
    · simp only; omega
    · simp only
      rw [List.drop_append_of_le_length (by omega), List.drop_of_length_le (by omega)]
      simp
  · rw [heq]
    exact ⟨hlen, hpos, htail, hnull⟩

theorem grow_bytes (buffer : List Nat) (size N : Nat) (hlen : buffer.length = size)
    (hle : size ≤ N) :
    memset (reallocBytes buffer N) size 0 (N - size)
      = buffer ++ List.replicate (N - size) 0 := by
  have h1 : reallocBytes buffer N = buffer ++ List.replicate (N - size) 0xAA := by
    unfold reallocBytes
    rw [List.take_of_length_le (by omega), hlen]
  have h2 : (buffer ++ List.replicate (N - size) 0xAA).take size = buffer := by
    rw [List.take_append_of_le_length (by omega), List.take_of_length_le (by omega)]
  have h3 : (buffer ++ List.replicate (N - size) 0xAA).drop (size + (N - size)) = [] := by
    apply List.drop_eq_nil_of_le
    simp only [List.length_append, List.length_replicate]
    omega
  rw [h1]
  unfold memset
  rw [h2, h3, List.append_nil]

theorem growBuffer_eq {J : Type} (env : Env J) (p q : InputPump J) (h : BufferOk p)
    (hg : growBuffer env p = some q) :
    q = p ∨
    (p.bufferPosition = p.bufferSize ∧
      q = { p with
        buffer := p.buffer ++ List.replicate
          ((if p.bufferNull then env.ReadBufferDefaultSize else p.bufferSize * 2)
            - p.bufferSize) 0,
        bufferNull := false,
        bufferSize := if p.bufferNull then env.ReadBufferDefaultSize else p.bufferSize * 2 } ∧
      p.bufferSize ≤ (if p.bufferNull then env.ReadBufferDefaultSize else p.bufferSize * 2)) := by
  obtain ⟨hlen, hpos, htail, hnull⟩ := h
  unfold growBuffer at hg
  by_cases hfull : p.bufferPosition = p.bufferSize
  · right
    simp only [hfull, if_true] at hg
    have hle : p.bufferSize ≤ (if p.bufferNull then env.ReadBufferDefaultSize else p.bufferSize * 2) := by
      by_cases hn : p.bufferNull = true
      · simp [hn, hnull hn]
      · simp [hn]; omega
    generalize (if p.bufferNull then env.ReadBufferDefaultSize else p.bufferSize * 2) = N
      at hg hle ⊢
    by_cases hok : env.reallocOk N = true
    · simp only [hok, if_true, Option.some.injEq] at hg
      refine ⟨hfull, ?_, hle⟩
      rw [← hg]
      congr 1
      · exact grow_bytes p.buffer p.bufferSize N hlen hle
      · exact hfull.symm
    · simp [hok] at hg
  · left
    simp only [hfull, if_false, Option.some.injEq] at hg
    exact hg.symm

theorem bufferOk_grow {J : Type} (env : Env J) (p q : InputPump J) (h : BufferOk p)
    (hg : growBuffer env p = some q) : BufferOk q := by
  rcases growBuffer_eq env p q h hg with heq | ⟨hfull, heq, hle⟩
  · rw [heq]; exact h
  · obtain ⟨hlen, hpos, htail, hnull⟩ := h
    rw [heq]
    refine ⟨?_, ?_, ?_, ?_⟩
    · simp only [List.length_append, List.length_replicate]; omega
    · simp only; omega
    · simp only
      rw [hfull, List.drop_append_of_le_length (by omega), List.drop_of_length_le (by omega)]
      simp
    · simp

theorem recv_length (wire : List Nat) (readSize : Nat) (ev : Event) :
    (recv wire readSize ev).2.length ≤ readSize ∧
    (0 < (recv wire readSize ev).1 →
      (recv wire readSize ev).1 = ((recv wire readSize ev).2.length : Int)) ∧
    (recv wire readSize ev).2 ++ wire.drop (recv wire readSize ev).2.length = wire := by
  unfold recv
  split
  · rename_i h
    refine ⟨by simp, ?_, by simp⟩
    intro hpos
    simp only at hpos
    omega
  · refine ⟨?_, fun _ => rfl, ?_⟩
    · simp only [List.length_take]
      omega
    · simp only [List.length_take]
      by_cases hw : min ev.recvRet.toNat readSize ≤ wire.length
      · rw [Nat.min_eq_left hw, List.take_append_drop]
      · have hw2 : wire.length ≤ min ev.recvRet.toNat readSize := by omega
        rw [Nat.min_eq_right hw2, List.take_of_length_le hw2, List.drop_length, List.append_nil]

theorem pollAndReceive_eq {J : Type} (p : InputPump J) (ev : Event) :
    (pollAndReceive p ev).1 = p ∨
    ((pollAndReceive p ev).2 = true ∧
     0 < (recv p.wire (p.bufferSize - p.bufferPosition) ev).2.length ∧
     (pollAndReceive p ev).1 =
      { p with
        buffer := p.buffer.take p.bufferPosition
          ++ (recv p.wire (p.bufferSize - p.bufferPosition) ev).2
          ++ p.buffer.drop (p.bufferPosition
              + (recv p.wire (p.bufferSize - p.bufferPosition) ev).2.length),
        bufferPosition := p.bufferPosition
          + (recv p.wire (p.bufferSize - p.bufferPosition) ev).2.length,
        wire := p.wire.drop (recv p.wire (p.bufferSize - p.bufferPosition) ev).2.length }) := by
  unfold pollAndReceive
  split
  · left; split <;> rfl
  · split
    · left; rfl
    · split
      · left; rfl
      · simp only
        split
        · left; split <;> rfl
        · rename_i h
          right
          have hpos : 0 < (recv p.wire (p.bufferSize - p.bufferPosition) ev).1 := by omega
          have hr := (recv_length p.wire (p.bufferSize - p.bufferPosition) ev).2.1 hpos
          refine ⟨rfl, ?_, ?_⟩
          · omega
          · rw [hr]
            simp

theorem bufferOk_receive {J : Type} (p : InputPump J) (ev : Event) (h : BufferOk p) :
    BufferOk (pollAndReceive p ev).1 := by
  rcases pollAndReceive_eq p ev with heq | ⟨_, _, heq⟩
  · rw [heq]; exact h
  · obtain ⟨hlen, hpos, htail, hnull⟩ := h
    have hr := (recv_length p.wire (p.bufferSize - p.bufferPosition) ev).1
    rw [heq]
    refine ⟨?_, ?_, ?_, hnull⟩
    · simp only [List.length_append, List.length_take, List.length_drop]; omega
    · simp only; omega
    · simp only
      have hl : (p.buffer.take p.bufferPosition
          ++ (recv p.wire (p.bufferSize - p.bufferPosition) ev).2).length
          = p.bufferPosition + (recv p.wire (p.bufferSize - p.bufferPosition) ev).2.length := by
        simp only [List.length_append, List.length_take]; omega
      rw [List.drop_append_of_le_length (by omega), List.drop_of_length_le (by omega)]
      rw [List.nil_append, ← List.drop_drop, htail, List.drop_replicate]
      congr 1
      omega

theorem bufferOk_step {J : Type} (env : Env J) (p : InputPump J) (op : BufferOp)
    (h : BufferOk p) : BufferOk (bufferStep env p op) := by
  cases op with
  | grow =>
    simp only [bufferStep]
    cases hg : growBuffer env p with
    | none => simpa using h
    | some q => simpa using bufferOk_grow env p q h hg
  | receive ev => exact bufferOk_receive p ev h
  | extract => exact bufferOk_extract env.parseJson p env.nullDynamic h

theorem bufferOk_foldl {J : Type} (env : Env J) (ops : List BufferOp) :
    ∀ p : InputPump J, BufferOk p → BufferOk (ops.foldl (bufferStep env) p) := by
  induction ops with
  | nil => intro p h; exact h
  | cons op rest ih => intro p h; exact ih _ (bufferOk_step env p op h)

theorem bufferOk_tail_zero {J : Type} (p : InputPump J) (h : BufferOk p) :
    ∀ i, p.bufferPosition ≤ i → i < p.bufferSize → p.buffer[i]? = some 0 := by
  intro i h1 h2
  obtain ⟨hlen, hpos, htail, _⟩ := h
  have h3 : (p.buffer.drop p.bufferPosition)[i - p.bufferPosition]? = some 0 := by
    rw [htail, List.getElem?_replicate]
    simp
    omega
  rw [List.getElem?_drop] at h3
  rwa [Nat.add_sub_cancel' h1] at h3

/-- C10: in every state reached from the empty buffer (capacity 0, cursor 0)
by growth, receives and frame extraction, the cursor is at most the capacity
and every byte from the cursor up to the capacity is zero. -/
theorem receive_buffer_invariant {J : Type} (env : Env J) (wire : List Nat)
    (ops : List BufferOp) :
    (ops.foldl (bufferStep env) (InputPump.init wire)).bufferPosition
      ≤ (ops.foldl (bufferStep env) (InputPump.init wire)).bufferSize ∧
    (ops.foldl (bufferStep env) (InputPump.init wire)).buffer.length
      = (ops.foldl (bufferStep env) (InputPump.init wire)).bufferSize ∧
    ∀ i, (ops.foldl (bufferStep env) (InputPump.init wire)).bufferPosition ≤ i →
      i < (ops.foldl (bufferStep env) (InputPump.init wire)).bufferSize →
      (ops.foldl (bufferStep env) (InputPump.init wire)).buffer[i]? = some 0 := by
  have h := bufferOk_foldl env ops (InputPump.init wire) (bufferOk_init wire)
  exact ⟨h.2.1, h.1, bufferOk_tail_zero _ h⟩

/-! ## Reassembly of the inbound stream -/

theorem frames_cons_mem (m : List Nat) (ms : List (List Nat)) : 0 ∈ frames (m :: ms) := by
  simp [frames]

theorem frames_no_null (rest : List (List Nat)) (h : 0 ∉ frames rest) : rest = [] := by
  cases rest with
  | nil => rfl
  | cons m ms => exact absurd (frames_cons_mem m ms) h

theorem split_frame (pre wire m tailf : List Nat) (h : pre ++ wire = m ++ 0 :: tailf)
    (h0 : 0 ∉ m) :
    (∃ post, pre = m ++ 0 :: post ∧ post ++ wire = tailf) ∨ 0 ∉ pre := by
  rcases List.append_eq_append_iff.1 h with ⟨a, hm, _⟩ | ⟨c, hpre, hc⟩
  · right
    intro hin
    apply h0
    rw [hm]
    exact List.mem_append_left _ hin
  · cases c with
    | nil =>
      right
      simpa [hpre] using h0
    | cons x post =>
      left
      simp only [List.cons_append, List.cons.injEq] at hc
      refine ⟨post, ?_, hc.2.symm⟩
      rw [hpre, ← hc.1]

theorem shape_facts (m post tl : List Nat) (h0 : 0 ∉ m) :
    (m ++ 0 :: (post ++ tl)).getD m.length 0 = 0 ∧
    (∀ j, j < m.length → (m ++ 0 :: (post ++ tl)).getD j 0 ≠ 0) ∧
    (m ++ 0 :: (post ++ tl)).take m.length = m ∧
    ((m ++ 0 :: (post ++ tl)).drop (m.length + 1)).take post.length = post := by
  refine ⟨?_, ?_, ?_, ?_⟩
  · rw [List.getD_eq_getElem?_getD, List.getElem?_append_right (le_refl _)]
    simp
  · intro j hj hz
    apply h0
    have hget : (m ++ 0 :: (post ++ tl))[j]? = some m[j] := by
      rw [List.getElem?_append_left hj, List.getElem?_eq_getElem hj]
    rw [List.getD_eq_getElem?_getD, hget, Option.getD_some] at hz
    rw [← hz]
    exact List.getElem_mem hj
  · exact List.take_left m _
  · have hdrop : (m ++ 0 :: (post ++ tl)).drop (m.length + 1) = post ++ tl := by
      rw [@List.drop_append Nat m (0 :: (post ++ tl)) 1]
      rfl
    rw [hdrop]
    exact List.take_left post tl

theorem no_null_getD (buffer : List Nat) (p : Nat) (hp : p ≤ buffer.length)
    (h0 : 0 ∉ buffer.take p) : ∀ j, j < p → buffer.getD j 0 ≠ 0 := by
  intro j hj hz
  apply h0
  have hj1 : j < buffer.length := by omega
  rw [List.getD_eq_getElem?_getD, List.getElem?_eq_getElem hj1, Option.getD_some] at hz
  rw [List.mem_take_iff_getElem]
  exact ⟨j, by omega, hz⟩

theorem drainLoop_frame {J : Type} (env : Env J) :
    ∀ fuel (p : InputPump J) (msg : J), BufferOk p →
      BufferOk (drainLoop env fuel p msg) ∧
      (drainLoop env fuel p msg).wire = p.wire ∧
      (drainLoop env fuel p msg).bufferNull = p.bufferNull ∧
      (drainLoop env fuel p msg).bufferSize = p.bufferSize := by
  intro fuel
  induction fuel with
  | zero => intro p msg h; exact ⟨h, rfl, rfl, rfl⟩
  | succ n ih =>
    intro p msg h
    have hx := bufferOk_extract env.parseJson p msg h
    simp only [drainLoop]
    split
    · split
      · exact ih _ _ hx
      · exact ⟨hx, rfl, rfl, rfl⟩
    · exact ⟨h, rfl, rfl, rfl⟩

theorem tryProcessMessage_success_lt {J : Type} (parseJson : List Nat → Option J)
    (buffer : List Nat) (size p : Nat) (msg : J)
    (hlen : buffer.length = size) (hp : p ≤ size)
    (hs : (tryProcessMessage parseJson buffer size p msg).success = true) :
    (tryProcessMessage parseJson buffer size p msg).bufferPosition < p := by
  rcases tryProcessMessage_cases parseJson buffer size p msg hlen hp
    with ⟨k, hk, _, _, heq⟩ | ⟨_, heq⟩
  · rw [heq]
    simp only
    omega
  · rw [heq] at hs
    simp at hs

/-- The bound on the rounds of `drainLoop` is never reached: one more round
changes nothing. -/
theorem drainLoop_fuel {J : Type} (env : Env J) :
    ∀ fuel (p : InputPump J) (msg : J), BufferOk p → p.bufferPosition ≤ fuel →
      drainLoop env (fuel + 1) p msg = drainLoop env fuel p msg := by
  intro fuel
  induction fuel with
  | zero =>
    intro p msg _ hf
    have hz : ¬ 0 < p.bufferPosition := by omega
    simp only [drainLoop, hz, if_false]
  | succ n ih =>
    intro p msg hok hf
    have hx := bufferOk_extract env.parseJson p msg hok
    rw [drainLoop, drainLoop]
    by_cases hpos : 0 < p.bufferPosition
    · simp only [hpos, if_true]
      by_cases hs : (tryProcessMessage env.parseJson p.buffer p.bufferSize p.bufferPosition
          msg).success = true
      · have hlt := tryProcessMessage_success_lt env.parseJson p.buffer p.bufferSize
          p.bufferPosition msg hok.1 hok.2.1 hs
        simp only [hs, if_true]
        exact ih _ _ hx (by simp only; omega)
      · simp only [hs, if_false, Bool.false_eq_true]
    · simp only [hpos, if_false]

theorem drainLoop_synced {J : Type} (env : Env J) (msgs : List (List Nat))
    (hwf : ∀ m ∈ msgs, 0 ∉ m ∧ (env.parseJson m).isSome = true) :
    ∀ fuel (p : InputPump J) (msg : J), p.bufferPosition ≤ fuel → BufferOk p →
      Synced env msgs p →
      Synced env msgs (drainLoop env fuel p msg) ∧
      0 ∉ (drainLoop env fuel p msg).buffer.take (drainLoop env fuel p msg).bufferPosition := by
  intro fuel
  induction fuel with
  | zero =>
    intro p msg hf _ hs
    have hz : p.bufferPosition = 0 := by omega
    simp only [drainLoop]
    exact ⟨hs, by simp [hz]⟩
  | succ n ih =>
    intro p msg hf hok hs
    simp only [drainLoop]
    by_cases hpos : 0 < p.bufferPosition
    · simp only [hpos, if_true]
      obtain ⟨hlen, hle, htail, hnull⟩ := hok
      obtain ⟨done, rest, hmsgs, hdel, hstream⟩ := hs
      have htl : (p.buffer.take p.bufferPosition).length = p.bufferPosition := by
        rw [List.length_take]; omega
      cases rest with
      | nil =>
        exfalso
        have : (p.buffer.take p.bufferPosition ++ p.wire).length = 0 := by
          rw [hstream]; rfl
        rw [List.length_append, htl] at this
        omega
      | cons m rest' =>
        have hm : m ∈ msgs := by rw [hmsgs]; simp
        obtain ⟨hm0, hmp⟩ := hwf m hm
        rcases split_frame _ _ m (frames rest') hstream hm0 with ⟨post, hpre, hpost⟩ | hnone
        · -- a complete frame is in the buffer
          have hbuf : p.buffer = m ++ 0 :: (post ++ p.buffer.drop p.bufferPosition) := by
            conv_lhs => rw [← List.take_append_drop p.bufferPosition p.buffer, hpre]
            simp
          have hp : p.bufferPosition = m.length + 1 + post.length := by
            rw [← htl, hpre]; simp; omega
          obtain ⟨f1, f2, f3, f4⟩ := shape_facts m post (p.buffer.drop p.bufferPosition) hm0
          rw [← hbuf] at f1 f2 f3 f4
          have hfound := tryProcessMessage_found env.parseJson p.buffer p.bufferSize
            p.bufferPosition m.length msg hlen hle (by omega) f1 f2
          have hsub : p.bufferPosition - (m.length + 1) = post.length := by omega
          rw [f3, hsub, f4] at hfound
          obtain ⟨v, hv⟩ := Option.isSome_iff_exists.1 hmp
          rw [hfound]
          simp only [hmp, if_true, hv, Option.getD_some]
          apply ih
          · simp only; omega
          · refine ⟨?_, ?_, ?_, hnull⟩
            · simp only [List.length_append, List.length_replicate]; omega
            · simp only; omega
            · simp only
              rw [List.drop_left]
          · refine ⟨done ++ [m], rest', ?_, ?_, ?_⟩
            · rw [hmsgs]; simp
            · simp only [List.map_append, hdel, List.map_cons, List.map_nil, hv]
            · simp only
              rw [List.take_left]
              exact hpost
        · -- the buffer holds only the beginning of a frame
          have hnn := tryProcessMessage_none env.parseJson p.buffer p.bufferSize
            p.bufferPosition msg (no_null_getD p.buffer p.bufferPosition (by omega) hnone)
          rw [hnn]
          simp only [Bool.false_eq_true, if_false]
          exact ⟨⟨done, m :: rest', hmsgs, hdel, hstream⟩, hnone⟩
    · have hz : p.bufferPosition = 0 := by omega
      simp only [hpos, if_false]
      exact ⟨hs, by simp [hz]⟩

theorem settled_of_synced {J : Type} (env : Env J) (msgs : List (List Nat))
    (p : InputPump J) (hs : Synced env msgs p)
    (h0 : 0 ∉ p.buffer.take p.bufferPosition) : Settled env msgs p := by
  obtain ⟨done, rest, hmsgs, hdel, hstream⟩ := hs
  refine ⟨done, rest, hmsgs, hdel, ?_⟩
  intro hw
  rw [hw, List.append_nil] at hstream
  exact frames_no_null rest (hstream ▸ h0)

theorem drainAndGrow_spec {J : Type} (env : Env J) (msgs : List (List Nat))
    (hwf : ∀ m ∈ msgs, 0 ∉ m ∧ (env.parseJson m).isSome = true)
    (p : InputPump J) (hok : BufferOk p) (hs : Synced env msgs p) :
    Settled env msgs (drainAndGrow env p).1 ∧
    ((drainAndGrow env p).2 = true →
      BufferOk (drainAndGrow env p).1 ∧ Synced env msgs (drainAndGrow env p).1) := by
  have hd := drainLoop_synced env msgs hwf p.bufferPosition p env.nullDynamic (le_refl _) hok hs
  have hf := (drainLoop_frame env p.bufferPosition p env.nullDynamic hok).1
  have hset := settled_of_synced env msgs _ hd.1 hd.2
  unfold drainAndGrow
  simp only
  cases hg : growBuffer env (drainLoop env p.bufferPosition p env.nullDynamic) with
  | none => exact ⟨hset, by simp⟩
  | some g =>
    simp only [true_implies]
    rcases growBuffer_eq env _ g hf hg with heq | ⟨hfull, heq, hle⟩
    · rw [heq]; exact ⟨hset, hf, hd.1⟩
    · have hgok := bufferOk_grow env _ g hf hg
      obtain ⟨done, rest, hmsgs, hdel, hstream⟩ := hd.1
      obtain ⟨_, _, hsettle⟩ := hset
      have hsync : Synced env msgs g := by
        refine ⟨done, rest, hmsgs, ?_, ?_⟩
        · rw [heq]; exact hdel
        · rw [heq]
          simp only
          rw [List.take_append_of_le_length (by rw [hf.1]; exact hf.2.1)]
          exact hstream
      refine ⟨?_, hgok, hsync⟩
      obtain ⟨d2, r2, h1, h2, h3⟩ := settled_of_synced env msgs _ hd.1 hd.2
      refine ⟨d2, r2, h1, ?_, ?_⟩
      · rw [heq]; exact h2
      · rw [heq]; exact h3

theorem pollAndReceive_synced {J : Type} (env : Env J) (msgs : List (List Nat))
    (p : InputPump J) (ev : Event) (hok : BufferOk p) (hs : Synced env msgs p) :
    Synced env msgs (pollAndReceive p ev).1 := by
  rcases pollAndReceive_eq p ev with heq | ⟨_, _, heq⟩
  · rw [heq]; exact hs
  · obtain ⟨hlen, hpos, _, _⟩ := hok
    obtain ⟨done, rest, hmsgs, hdel, hstream⟩ := hs
    have hr := recv_length p.wire (p.bufferSize - p.bufferPosition) ev
    have htl : (p.buffer.take p.bufferPosition).length = p.bufferPosition := by
      rw [List.length_take]; omega
    refine ⟨done, rest, hmsgs, ?_, ?_⟩
    · rw [heq]; exact hdel
    · rw [heq]
      simp only
      rw [List.take_append_of_le_length
        (by simp only [List.length_append, htl]; omega)]
      rw [List.take_of_length_le (by simp only [List.length_append, htl]; omega)]
      rw [List.append_assoc, hr.2.2]
      exact hstream

theorem pollAndReceive_break {J : Type} (p : InputPump J) (ev : Event)
    (h : (pollAndReceive p ev).2 = false) : (pollAndReceive p ev).1 = p := by
  rcases pollAndReceive_eq p ev with heq | ⟨ht, _, _⟩
  · exact heq
  · rw [h] at ht; exact absurd ht (by simp)

theorem settled_exit {J : Type} (env : Env J) (msgs : List (List Nat)) (p : InputPump J)
    (h : Settled env msgs p) : Settled env msgs (inputExit p).pump := h

theorem inputLoop_settled {J : Type} (env : Env J) (msgs : List (List Nat))
    (hwf : ∀ m ∈ msgs, 0 ∉ m ∧ (env.parseJson m).isSome = true) :
    ∀ (events : List Event) (p : InputPump J), BufferOk p → Synced env msgs p →
      Settled env msgs (inputLoop env events p).pump := by
  intro events
  induction events with
  | nil =>
    intro p hok hs
    have h := drainAndGrow_spec env msgs hwf p hok hs
    unfold inputLoop
    rcases hdg : drainAndGrow env p with ⟨q, b⟩
    rw [hdg] at h
    cases b
    · exact settled_exit env msgs q h.1
    · exact h.1
  | cons ev rest ih =>
    intro p hok hs
    have h := drainAndGrow_spec env msgs hwf p hok hs
    unfold inputLoop
    rcases hdg : drainAndGrow env p with ⟨q, b⟩
    rw [hdg] at h
    cases b
    · exact settled_exit env msgs q h.1
    · obtain ⟨hset, hrest⟩ := h
      obtain ⟨hqok, hqs⟩ := hrest rfl
      simp only
      rcases hpr : pollAndReceive q ev with ⟨q', b'⟩
      cases b'
      · have hq' : q' = q := by
          have := pollAndReceive_break q ev (by rw [hpr])
          rw [hpr] at this
          exact this
        simp only
        rw [hq']
        exact settled_exit env msgs q hset
      · simp only
        have h1 := pollAndReceive_synced env msgs q ev hqok hqs
        have h2 := bufferOk_receive q ev hqok
        rw [hpr] at h1 h2
        exact ih q' h2 h1

/-! ## Every receive makes progress -/

theorem drainAndGrow_room {J : Type} (env : Env J)
    (hD : 0 < env.ReadBufferDefaultSize) (halloc : ∀ n, env.reallocOk n = true)
    (p : InputPump J) (hok : BufferOk p) (hal : Allocated p) :
    (drainAndGrow env p).2 = true ∧ BufferOk (drainAndGrow env p).1 ∧
    Allocated (drainAndGrow env p).1 ∧ (drainAndGrow env p).1.wire = p.wire ∧
    (drainAndGrow env p).1.bufferPosition < (drainAndGrow env p).1.bufferSize := by
  obtain ⟨hf, hw, hn, hsz⟩ := drainLoop_frame env p.bufferPosition p env.nullDynamic hok
  have hal2 : Allocated (drainLoop env p.bufferPosition p env.nullDynamic) := by
    unfold Allocated
    rw [hn, hsz]
    exact hal
  unfold drainAndGrow
  simp only
  generalize drainLoop env p.bufferPosition p env.nullDynamic = d at hf hw hal2
  cases hg : growBuffer env d with
  | none =>
    exfalso
    unfold growBuffer at hg
    split at hg
    · simp [halloc] at hg
    · simp at hg
  | some g =>
    simp only
    have hgok := bufferOk_grow env d g hf hg
    by_cases hfull : d.bufferPosition = d.bufferSize
    · have hN : d.bufferSize <
          (if d.bufferNull then env.ReadBufferDefaultSize else d.bufferSize * 2) := by
        by_cases hdn : d.bufferNull = true
        · have := hf.2.2.2 hdn
          rw [if_pos hdn]
          omega
        · have hdf : d.bufferNull = false := by simpa using hdn
          have := hal2 hdf
          rw [if_neg hdn]
          omega
      unfold growBuffer at hg
      simp only [hfull, if_true, halloc, Option.some.injEq] at hg
      have h1 : g.bufferSize
          = (if d.bufferNull then env.ReadBufferDefaultSize else d.bufferSize * 2) := by
        rw [← hg]
      have h2 : g.bufferPosition = d.bufferSize := by rw [← hg]
      have h3 : g.wire = d.wire := by rw [← hg]
      refine ⟨trivial, hgok, ?_, by rw [h3, hw], by rw [h1, h2]; exact hN⟩
      intro _
      rw [h1]
      omega
    · unfold growBuffer at hg
      simp only [hfull, if_false, Option.some.injEq] at hg
      rw [← hg]
      have := hf.2.1
      exact ⟨trivial, hf, hal2, hw, by omega⟩

theorem recv_data (wire : List Nat) (readSize n : Nat) :
    recv wire readSize (Event.data n)
      = (if n = 0 then ((0 : Int), []) else
          (((wire.take (min n readSize)).length : Int), wire.take (min n readSize))) := by
  unfold recv Event.data
  by_cases hn : n = 0
  · subst hn; simp
  · have : ¬ ((n : Int) ≤ 0) := by omega
    simp [this, hn]

theorem pollAndReceive_data {J : Type} (p : InputPump J) (n : Nat) (hn : 1 ≤ n)
    (hroom : p.bufferPosition < p.bufferSize) :
    (p.wire = [] → pollAndReceive p (Event.data n) = (p, false)) ∧
    (p.wire ≠ [] → (pollAndReceive p (Event.data n)).2 = true ∧
      (pollAndReceive p (Event.data n)).1.wire.length < p.wire.length) := by
  have hn0 : n ≠ 0 := by omega
  have hrecv := recv_data p.wire (p.bufferSize - p.bufferPosition) n
  rw [if_neg hn0] at hrecv
  have hmin : 1 ≤ min n (p.bufferSize - p.bufferPosition) := by
    rw [Nat.le_min]; omega
  have hhead : pollAndReceive p (Event.data n) =
      (if (recv p.wire (p.bufferSize - p.bufferPosition) (Event.data n)).1 ≤ 0 then
        (if (recv p.wire (p.bufferSize - p.bufferPosition) (Event.data n)).1 = -EINTR
          then (p, true) else (p, false))
      else
        ({ p with
            buffer := p.buffer.take p.bufferPosition
              ++ (recv p.wire (p.bufferSize - p.bufferPosition) (Event.data n)).2
              ++ p.buffer.drop (p.bufferPosition
                + (recv p.wire (p.bufferSize - p.bufferPosition) (Event.data n)).2.length),
            bufferPosition := p.bufferPosition
              + (recv p.wire (p.bufferSize - p.bufferPosition) (Event.data n)).1.toNat,
            wire := p.wire.drop
              (recv p.wire (p.bufferSize - p.bufferPosition) (Event.data n)).2.length },
          true)) := by
    unfold pollAndReceive
    simp [Event.data, POLLIN]
  rw [hhead, hrecv]
  constructor
  · intro hw
    simp [hw, EINTR]
  · intro hw
    have hlen : 0 < p.wire.length := List.length_pos.2 hw
    have hpos : 0 < (p.wire.take (min n (p.bufferSize - p.bufferPosition))).length := by
      rw [List.length_take]; omega
    have hnot : ¬ (((p.wire.take (min n (p.bufferSize - p.bufferPosition))).length : Int) ≤ 0) := by
      omega
    simp only [hnot, if_false, List.length_drop, true_and]
    omega

theorem allocated_receive {J : Type} (p : InputPump J) (ev : Event) (h : Allocated p) :
    Allocated (pollAndReceive p ev).1 := by
  rcases pollAndReceive_eq p ev with heq | ⟨_, _, heq⟩
  · rw [heq]; exact h
  · rw [heq]; exact h

theorem inputLoop_progress {J : Type} (env : Env J)
    (hD : 0 < env.ReadBufferDefaultSize) (halloc : ∀ n, env.reallocOk n = true) :
    ∀ (avail : List Nat) (p : InputPump J), (∀ n ∈ avail, 1 ≤ n) → BufferOk p →
      Allocated p →
      (inputLoop env (avail.map Event.data) p).pump.wire.length
        ≤ p.wire.length - avail.length := by
  intro avail
  induction avail with
  | nil =>
    intro p _ hok hal
    obtain ⟨hb, _, _, hw, _⟩ := drainAndGrow_room env hD halloc p hok hal
    simp only [List.map_nil, inputLoop]
    rcases hdg : drainAndGrow env p with ⟨q, b⟩
    rw [hdg] at hb hw
    simp only at hb hw
    subst hb
    simp only [List.length_nil, Nat.sub_zero]
    rw [hw]
  | cons n rest ih =>
    intro p hav hok hal
    obtain ⟨hb, hqok, hqal, hw, hroom⟩ := drainAndGrow_room env hD halloc p hok hal
    simp only [List.map_cons, inputLoop]
    rcases hdg : drainAndGrow env p with ⟨q, b⟩
    rw [hdg] at hb hqok hqal hw hroom
    simp only at hb hqok hqal hw hroom
    subst hb
    simp only
    obtain ⟨hempty, hmore⟩ := pollAndReceive_data q n (hav n (by simp)) hroom
    by_cases hwire : q.wire = []
    · rw [hempty hwire]
      simp only [inputExit]
      rw [hwire]
      simp
    · obtain ⟨hflag, hless⟩ := hmore hwire
      have h1 := bufferOk_receive q (Event.data n) hqok
      have h2 := allocated_receive q (Event.data n) hqal
      rcases hpr : pollAndReceive q (Event.data n) with ⟨q', b'⟩
      rw [hpr] at hflag hless h1 h2
      simp only at hflag hless h1 h2
      subst hflag
      simp only
      have hih := ih q' (fun k hk => hav k (by simp [hk])) h1 h2
      have hwl : q.wire.length = p.wire.length := by rw [hw]
      simp only [List.length_cons]
      omega

theorem recv_exact (chunk rest : List Nat) (readSize : Nat) (h1 : 1 ≤ chunk.length)
    (h2 : chunk.length ≤ readSize) :
    recv (chunk ++ rest) readSize (Event.data chunk.length)
      = ((chunk.length : Int), chunk) := by
  rw [recv_data, if_neg (by omega), Nat.min_eq_left h2, List.take_left]

theorem synced_init {J : Type} (env : Env J) (msgs : List (List Nat)) :
    Synced env msgs (InputPump.init (frames msgs) : InputPump J) :=
  ⟨[], msgs, rfl, rfl, rfl⟩

theorem pollAndReceive_chunk {J : Type} (p : InputPump J) (chunk rest : List Nat)
    (hw : p.wire = chunk ++ rest) (h1 : 1 ≤ chunk.length)
    (h2 : chunk.length ≤ p.bufferSize - p.bufferPosition) :
    (pollAndReceive p (Event.data chunk.length)).2 = true ∧
    (pollAndReceive p (Event.data chunk.length)).1.wire = rest := by
  have hrecv := recv_exact chunk rest (p.bufferSize - p.bufferPosition) h1 h2
  rw [← hw] at hrecv
  have hnot : ¬ ((chunk.length : Int) ≤ 0) := by omega
  unfold pollAndReceive
  simp only [Event.data, POLLIN] at hrecv ⊢
  simp only [hrecv, hnot, if_false]
  simp [hw]

theorem inputLoop_chunks {J : Type} (env : Env J)
    (hD : 0 < env.ReadBufferDefaultSize) (halloc : ∀ n, env.reallocOk n = true) :
    ∀ (chunks : List (List Nat)) (p : InputPump J), BufferOk p → Allocated p →
      p.wire = joinChunks chunks → chunksFit env chunks p = true →
      (inputLoop env (chunkEvents chunks) p).pump.wire = [] ∧
      (inputLoop env (chunkEvents chunks) p).exited = false := by
  intro chunks
  induction chunks with
  | nil =>
    intro p hok hal hw _
    obtain ⟨hb, _, _, hwire, _⟩ := drainAndGrow_room env hD halloc p hok hal
    simp only [chunkEvents, List.map_nil, inputLoop]
    rcases hdg : drainAndGrow env p with ⟨q, b⟩
    rw [hdg] at hb hwire
    simp only at hb hwire
    subst hb
    simp only
    exact ⟨by rw [hwire, hw]; rfl, trivial⟩
  | cons c cs ih =>
    intro p hok hal hw hfit
    obtain ⟨hb, hqok, hqal, hwire, _⟩ := drainAndGrow_room env hD halloc p hok hal
    simp only [chunksFit, Bool.and_eq_true, decide_eq_true_eq] at hfit
    obtain ⟨⟨hc1, hc2⟩, hrest⟩ := hfit
    simp only [chunkEvents, List.map_cons, inputLoop]
    rcases hdg : drainAndGrow env p with ⟨q, b⟩
    rw [hdg] at hb hqok hqal hwire hc2 hrest
    simp only at hb hqok hqal hwire hc2 hrest
    subst hb
    simp only
    have hqw : q.wire = c ++ joinChunks cs := by rw [hwire, hw]; rfl
    obtain ⟨hflag, hnext⟩ := pollAndReceive_chunk q c (joinChunks cs) hqw hc1 hc2
    have h1 := bufferOk_receive q (Event.data c.length) hqok
    have h2 := allocated_receive q (Event.data c.length) hqal
    rcases hpr : pollAndReceive q (Event.data c.length) with ⟨q', b'⟩
    rw [hpr] at hflag hnext h1 h2 hrest
    simp only at hflag hnext h1 h2 hrest
    subst hflag
    simp only
    exact ih q' h1 h2 hnext hrest

/-- C1: take well-formed messages (no null byte, parseable), a descriptor, a
positive initial capacity and a `realloc` that succeeds.  For every splitting
of the concatenated frames into non-empty chunks, each no larger than the
free space offered to `recv`, the pump ends blocked in `poll` having called
`onClientMessage` once per message, with its parsed payload, in arrival
order.  More generally, whatever number of bytes `avail` is ready at each
receive: the calls made are at every moment the payloads of a leading part of
the messages, in order and once each; they are the payloads of all messages
once no byte is left on the wire; and every receive takes at least one byte. -/
theorem input_pump_delivers_each_message_once {J : Type} (env : Env J) (fd : Int)
    (msgs : List (List Nat))
    (hfd : 0 ≤ fd) (hD : 0 < env.ReadBufferDefaultSize)
    (halloc : ∀ n, env.reallocOk n = true)
    (hwf : ∀ m ∈ msgs, 0 ∉ m ∧ (env.parseJson m).isSome = true) :
    (∀ chunks : List (List Nat), joinChunks chunks = frames msgs →
      chunksFit env chunks (InputPump.init (frames msgs)) = true →
      (processIncomingMessages env fd (frames msgs) (chunkEvents chunks)).pump.delivered.map
        some = msgs.map env.parseJson ∧
      (processIncomingMessages env fd (frames msgs) (chunkEvents chunks)).exited = false) ∧
    (∀ avail : List Nat, (∀ n ∈ avail, 1 ≤ n) →
      (∃ done rest, msgs = done ++ rest ∧
        (processIncomingMessages env fd (frames msgs)
          (avail.map Event.data)).pump.delivered.map some = done.map env.parseJson) ∧
      ((processIncomingMessages env fd (frames msgs) (avail.map Event.data)).pump.wire = [] →
        (processIncomingMessages env fd (frames msgs)
          (avail.map Event.data)).pump.delivered.map some = msgs.map env.parseJson) ∧
      (processIncomingMessages env fd (frames msgs) (avail.map Event.data)).pump.wire.length
        ≤ (frames msgs).length - avail.length) := by
  have hnot : ¬ fd < 0 := by omega
  have hal0 : Allocated (InputPump.init (frames msgs) : InputPump J) := by
    intro h; simp [InputPump.init] at h
  have hsettled : ∀ events : List Event,
      ∃ done rest, msgs = done ++ rest ∧
        (inputLoop env events (InputPump.init (frames msgs))).pump.delivered.map some
          = done.map env.parseJson ∧
        ((inputLoop env events (InputPump.init (frames msgs))).pump.wire = [] → rest = []) :=
    fun events => inputLoop_settled env msgs hwf events (InputPump.init (frames msgs))
      (bufferOk_init _) (synced_init env msgs)
  unfold processIncomingMessages
  simp only [hnot, if_false]
  refine ⟨?_, ?_⟩
  · intro chunks hjoin hfit
    obtain ⟨hwire, hexit⟩ := inputLoop_chunks env hD halloc chunks
      (InputPump.init (frames msgs)) (bufferOk_init _) hal0 hjoin.symm hfit
    obtain ⟨done, rest, hmsgs, hdel, hall⟩ := hsettled (chunkEvents chunks)
    have hr := hall hwire
    subst hr
    refine ⟨?_, hexit⟩
    rw [hdel, hmsgs, List.append_nil]
  · intro avail havail
    obtain ⟨done, rest, hmsgs, hdel, hall⟩ := hsettled (avail.map Event.data)
    refine ⟨⟨done, rest, hmsgs, hdel⟩, ?_, ?_⟩
    · intro hw
      have hr := hall hw
      subst hr
      rw [hdel, hmsgs, List.append_nil]
    · exact inputLoop_progress env hD halloc avail (InputPump.init (frames msgs)) havail
        (bufferOk_init _) hal0

/-- Witness for C1: two `{}` messages received as the chunks `{}\0{`, `}`
and `\0`. -/
theorem input_pump_delivers_each_message_once_witness :
    (processIncomingMessages demoEnv 3 (frames [[123, 125], [123, 125]])
        (chunkEvents [[123, 125, 0, 123], [125], [0]])).pump.delivered.map some
      = [[123, 125], [123, 125]].map demoEnv.parseJson ∧
    (processIncomingMessages demoEnv 3 (frames [[123, 125], [123, 125]])
        (chunkEvents [[123, 125, 0, 123], [125], [0]])).exited = false :=
  (input_pump_delivers_each_message_once demoEnv 3 [[123, 125], [123, 125]]
      (by decide) (by decide) (fun _ => rfl) (by decide)).1
    [[123, 125, 0, 123], [125], [0]] (by decide) (by decide)

/-- C3 on the code: the stream `x\0{}\0` arrives in one receive.  The drain
loop consumes the malformed frame `x`, gets `false` from `tryProcessMessage`
and stops: the pump blocks in `poll` with the complete frame `{}` in its
buffer and no `onClientMessage` call made.  The frame is delivered only after
a further byte has arrived. -/
theorem malformed_frame_stalls_delivery :
    (processIncomingMessages demoEnv 3 (frames [[120], [123, 125]])
        [Event.data 5]).pump.delivered = [] ∧
    (processIncomingMessages demoEnv 3 (frames [[120], [123, 125]])
        [Event.data 5]).pump.wire = [] ∧
    (processIncomingMessages demoEnv 3 (frames [[120], [123, 125]])
        [Event.data 5]).exited = false ∧
    (processIncomingMessages demoEnv 3 (frames [[120], [123, 125]])
        [Event.data 5]).pump.buffer = [123, 125, 0, 0, 0, 0, 0, 0] ∧
    (processIncomingMessages demoEnv 3 (frames [[120], [123, 125]])
        [Event.data 5]).pump.bufferPosition = 3 ∧
    (processIncomingMessages demoEnv 3 (frames [[120], [123, 125]] ++ [123])
        [Event.data 5, Event.data 1]).pump.delivered = [2] := by
  decide

/-- C9 on the code: `poll` and `recv` report an interruption as the return
value -1 with `errno` set to `EINTR`; the loop compares the return value with
`-EINTR`, so in every pump state it breaks instead of retrying, and the
thread goes on to call `onClientDisconnected`. -/
theorem interrupted_call_leaves_loop {J : Type} (env : Env J) (p : InputPump J)
    (rest : List Event) :
    pollAndReceive p Event.pollInterrupted = (p, false) ∧
    pollAndReceive p Event.recvInterrupted = (p, false) ∧
    (inputLoop env (Event.pollInterrupted :: rest) p).exited = true ∧
    (inputLoop env (Event.pollInterrupted :: rest) p).disconnects = 1 ∧
    (inputLoop env (Event.recvInterrupted :: rest) p).exited = true ∧
    (inputLoop env (Event.recvInterrupted :: rest) p).disconnects = 1 := by
  have h1 : ∀ q : InputPump J, pollAndReceive q Event.pollInterrupted = (q, false) := by
    intro q
    simp [pollAndReceive, Event.pollInterrupted, EINTR]
  have h2 : ∀ q : InputPump J, pollAndReceive q Event.recvInterrupted = (q, false) := by
    intro q
    simp [pollAndReceive, Event.recvInterrupted, EINTR, POLLIN, recv]
  refine ⟨h1 p, h2 p, ?_, ?_, ?_, ?_⟩ <;>
  · unfold inputLoop
    rcases drainAndGrow env p with ⟨q, b⟩
    cases b <;> simp [h1, h2, inputExit]

/-! ## The output pump -/

theorem frames_append (a b : List (List Nat)) : frames (a ++ b) = frames a ++ frames b := by
  induction a with
  | nil => rfl
  | cons m ms ih => simp [frames, ih]

theorem cstr_no_null (m : List Nat) (h : 0 ∉ m) : cstr m = m := by
  unfold cstr
  rw [List.takeWhile_eq_self_iff]
  intro x hx
  have : x ≠ 0 := fun hz => h (hz ▸ hx)
  simpa using this

theorem enqueue_connected {J : Type} (folly : Folly J) (t : Transport J) (message : J)
    (messageType : List Nat) (hc : t.clientConnected = true) :
    enqueueOutgoingMessageForClient folly message messageType t =
      { t with outgoingMessages :=
          t.outgoingMessages ++ [wrapOutgoingMessage folly message messageType] } := by
  unfold enqueueOutgoingMessageForClient
  rw [hc]
  rfl

theorem outputOk_enqueue {J : Type} (folly : Folly J) (hnul : ∀ j, 0 ∉ folly.toJson j)
    (sent : List (List Nat)) (t : Transport J) (message : J) (messageType : List Nat)
    (h : OutputOk sent t) :
    OutputOk (sent ++ [wrapOutgoingMessage folly message messageType])
      (enqueueOutgoingMessageForClient folly message messageType t) := by
  obtain ⟨hc, ht, hfd, hth, hn, hw, hcount⟩ := h
  rw [enqueue_connected folly t message messageType hc]
  refine ⟨hc, ht, hfd, hth, ?_, ?_, ?_⟩
  · intro m hm
    change m ∈ t.batch ++ (t.outgoingMessages
      ++ [wrapOutgoingMessage folly message messageType]) at hm
    rw [← List.append_assoc, List.mem_append] at hm
    rcases hm with hm | hm
    · exact hn m hm
    · rw [List.mem_singleton] at hm
      rw [hm]
      exact hnul _
  · change t.written ++ frames (t.batch ++ (t.outgoingMessages
      ++ [wrapOutgoingMessage folly message messageType])) = _
    rw [← List.append_assoc, frames_append, frames_append sent, ← List.append_assoc, hw]
  · change (t.batch ++ (t.outgoingMessages
      ++ [wrapOutgoingMessage folly message messageType])).length ≤ _
    simp only [List.length_append, List.length_cons, List.length_nil] at hcount ⊢
    omega

theorem outputStep_started {J : Type} (t : Transport J) (w : Bool)
    (hs : t.outputThread = .started) (hfd : 0 ≤ t.transportFd) :
    outputStep w t = { t with outputThread := .waiting } := by
  have hfd1 : ¬ t.transportFd < 0 := by omega
  unfold outputStep
  rw [hs]
  simp only [hfd1, if_false]

theorem outputStep_waiting_empty {J : Type} (t : Transport J) (w : Bool)
    (hs : t.outputThread = .waiting) (ht : t.terminating = false)
    (hq : t.outgoingMessages.length = 0) : outputStep w t = t := by
  unfold outputStep
  rw [hs]
  simp only [ht, hq, Bool.false_eq_true, if_false, if_true]

theorem outputStep_waiting_take {J : Type} (t : Transport J) (w : Bool)
    (hs : t.outputThread = .waiting) (ht : t.terminating = false)
    (hq : ¬ t.outgoingMessages.length = 0) :
    outputStep w t =
      { t with outputThread := .sending t.outgoingMessages, outgoingMessages := [] } := by
  unfold outputStep
  rw [hs]
  simp only [ht, hq, Bool.false_eq_true, if_false]

theorem outputStep_sending_nil {J : Type} (t : Transport J) (w : Bool)
    (hs : t.outputThread = .sending []) :
    outputStep w t = { t with outputThread := .waiting } := by
  unfold outputStep
  rw [hs]

theorem outputStep_sending_cons {J : Type} (t : Transport J) (m : List Nat)
    (r : List (List Nat)) (hs : t.outputThread = .sending (m :: r)) :
    outputStep true t =
      { t with written := t.written ++ (cstr m ++ [0]), outputThread := .sending r } := by
  unfold outputStep
  rw [hs]
  simp only [if_true]

theorem outputOk_pump {J : Type} (sent : List (List Nat)) (t : Transport J)
    (h : OutputOk sent t) :
    OutputOk sent (outputStep true t) ∧ stepsToDrain (outputStep true t) ≤ stepsToDrain t - 1 := by
  obtain ⟨hc, ht, hfd, hth, hn, hw, hcount⟩ := h
  rcases hth with hs | hs | ⟨b, hs⟩
  · -- started
    have hb : t.batch = [] := by simp [Transport.batch, hs]
    rw [hb] at hn hw hcount
    rw [outputStep_started t true hs hfd]
    refine ⟨⟨hc, ht, hfd, Or.inr (Or.inl rfl), hn, hw, hcount⟩, ?_⟩
    simp only [stepsToDrain, hs]
    omega
  · -- waiting
    have hb : t.batch = [] := by simp [Transport.batch, hs]
    by_cases hq : t.outgoingMessages.length = 0
    · rw [outputStep_waiting_empty t true hs ht hq]
      exact ⟨⟨hc, ht, hfd, Or.inr (Or.inl hs), hn, hw, hcount⟩, by simp [stepsToDrain, hs, hq]⟩
    · rw [outputStep_waiting_take t true hs ht hq]
      rw [hb] at hn hw hcount
      refine ⟨⟨hc, ht, hfd, Or.inr (Or.inr ⟨_, rfl⟩), ?_, ?_, ?_⟩, ?_⟩
      · intro m hm
        change m ∈ t.outgoingMessages ++ [] at hm
        rw [List.append_nil] at hm
        exact hn m (by simpa using hm)
      · change t.written ++ frames (t.outgoingMessages ++ []) = _
        rw [List.append_nil]
        simpa using hw
      · change (t.outgoingMessages ++ []).length ≤ _
        simpa using hcount
      · simp only [stepsToDrain, hs, hq, if_false, List.length_nil, if_true]
        omega
  · -- sending
    have hb : t.batch = b := by simp [Transport.batch, hs]
    rw [hb] at hn hw hcount
    cases b with
    | nil =>
      rw [outputStep_sending_nil t true hs]
      refine ⟨⟨hc, ht, hfd, Or.inr (Or.inl rfl), ?_, ?_, ?_⟩, ?_⟩
      · intro m hm; exact hn m hm
      · exact hw
      · exact hcount
      · simp only [stepsToDrain, hs, List.length_nil]
        split <;> omega
    | cons m r =>
      have hm : 0 ∉ m := hn m (by simp)
      rw [outputStep_sending_cons t m r hs, cstr_no_null m hm]
      refine ⟨⟨hc, ht, hfd, Or.inr (Or.inr ⟨_, rfl⟩), ?_, ?_, ?_⟩, ?_⟩
      · intro x hx
        change x ∈ r ++ t.outgoingMessages at hx
        exact hn x (by simp only [List.cons_append, List.mem_cons]; exact Or.inr hx)
      · change (t.written ++ (m ++ [0])) ++ frames (r ++ t.outgoingMessages) = _
        rw [← hw]
        simp [frames]
      · change (r ++ t.outgoingMessages).length ≤ _
        simp only [List.cons_append, List.length_cons] at hcount
        omega
      · simp only [stepsToDrain, hs, List.length_cons]
        omega

theorem run_append {J : Type} (env : Env J) (folly : Folly J) (a b : List (Action J)) :
    ∀ t, run env folly (a ++ b) t = (run env folly a t).bind (run env folly b) := by
  induction a with
  | nil => intro t; rfl
  | cons x xs ih =>
    intro t
    simp only [List.cons_append, run]
    cases step env folly t x with
    | none => rfl
    | some t' => exact ih t'

theorem run_sends {J : Type} (env : Env J) (folly : Folly J)
    (hnul : ∀ j, 0 ∉ folly.toJson j) :
    ∀ (sched : List (Action J)) (t : Transport J) (sent : List (List Nat)),
      (∀ a ∈ sched, a.isSend = true) → OutputOk sent t →
      ∃ t', run env folly sched t = some t' ∧ OutputOk (sent ++ wrappedOf folly sched) t' := by
  intro sched
  induction sched with
  | nil =>
    intro t sent _ h
    exact ⟨t, rfl, by simpa [wrappedOf] using h⟩
  | cons a rest ih =>
    intro t sent hs h
    have ha := hs a (by simp)
    have hrest : ∀ x ∈ rest, x.isSend = true := fun x hx => hs x (by simp [hx])
    cases a with
    | enqueue message messageType =>
      obtain ⟨t', hrun, hok⟩ := ih _ _ hrest (outputOk_enqueue folly hnul sent t message messageType h)
      refine ⟨t', ?_, ?_⟩
      · simp only [run, step]; exact hrun
      · simpa [wrappedOf] using hok
    | outputStep w =>
      cases w with
      | false => simp [Action.isSend] at ha
      | true =>
        obtain ⟨t', hrun, hok⟩ := ih _ _ hrest (outputOk_pump sent t h).1
        refine ⟨t', ?_, ?_⟩
        · simp only [run, step]; exact hrun
        · simpa [wrappedOf] using hok
    | setTransportFd _ _ => simp [Action.isSend] at ha
    | setClientConnected _ => simp [Action.isSend] at ha
    | enqueueTest _ _ => simp [Action.isSend] at ha
    | enqueuePush _ => simp [Action.isSend] at ha
    | inputStep _ => simp [Action.isSend] at ha
    | peerSends _ => simp [Action.isSend] at ha
    | shutdownInputThread => simp [Action.isSend] at ha
    | shutdownOutputThread => simp [Action.isSend] at ha
    | shutdownFinish => simp [Action.isSend] at ha

theorem run_pumps {J : Type} (env : Env J) (folly : Folly J) (sent : List (List Nat)) :
    ∀ (n : Nat) (t : Transport J), OutputOk sent t →
      ∃ t', run env folly (List.replicate n (.outputStep true)) t = some t' ∧
        OutputOk sent t' ∧ stepsToDrain t' ≤ stepsToDrain t - n := by
  intro n
  induction n with
  | zero => intro t h; exact ⟨t, rfl, h, by simp⟩
  | succ k ih =>
    intro t h
    obtain ⟨h1, h2⟩ := outputOk_pump sent t h
    obtain ⟨t', hrun, hok, hle⟩ := ih _ h1
    refine ⟨t', ?_, hok, by omega⟩
    simp only [List.replicate_succ, run, step]
    exact hrun

theorem drained_of_zero {J : Type} (sent : List (List Nat)) (t : Transport J)
    (h : OutputOk sent t) (hz : stepsToDrain t = 0) : drained t = true := by
  obtain ⟨_, _, _, hth, _, _, _⟩ := h
  rcases hth with hs | hs | ⟨b, hs⟩
  · simp only [stepsToDrain, hs] at hz
    omega
  · simp only [stepsToDrain, hs] at hz
    have hq : t.outgoingMessages.length = 0 := by
      by_contra hne
      simp only [hne, if_false] at hz
      omega
    simp [drained, hs, List.length_eq_zero.1 hq]
  · simp only [stepsToDrain, hs] at hz
    have hb : b.length = 0 := by omega
    have hb2 : b = [] := List.length_eq_zero.1 hb
    have hq : t.outgoingMessages.length = 0 := by
      by_contra hne
      simp only [hne, if_false] at hz
      omega
    subst hb2
    simp [drained, hs, List.length_eq_zero.1 hq]

theorem written_of_drained {J : Type} (sent : List (List Nat)) (t : Transport J)
    (h : OutputOk sent t) (hd : drained t = true) : t.written = frames sent := by
  obtain ⟨_, _, _, _, _, hw, _⟩ := h
  simp only [drained, Bool.and_eq_true, List.isEmpty_iff] at hd
  obtain ⟨hq, hth⟩ := hd
  have hb : t.batch = [] := by
    unfold Transport.batch
    split at hth
    · rename_i hs; rw [hs]
    · rename_i hs; rw [hs]
    · simp at hth
  rw [hq, hb] at hw
  simpa [frames] using hw

theorem stepsToDrain_le {J : Type} (sent : List (List Nat)) (t : Transport J)
    (h : OutputOk sent t) : stepsToDrain t ≤ sent.length + 3 := by
  obtain ⟨_, _, _, hth, _, _, hcount⟩ := h
  rw [List.length_append] at hcount
  rcases hth with hs | hs | ⟨b, hs⟩
  · simp only [stepsToDrain, hs]
    split <;> omega
  · simp only [stepsToDrain, hs]
    split <;> omega
  · have hb : t.batch = b := by simp [Transport.batch, hs]
    rw [hb] at hcount
    simp only [stepsToDrain, hs]
    split <;> omega

theorem outputOk_attached {J : Type} (fd : Int) (pipe : Int × Int) (hfd : 0 ≤ fd) :
    ∃ t : Transport J,
      setTransportFd fd (some pipe) (setClientConnected true Transport.init) = some t ∧
      OutputOk [] t := by
  refine ⟨_, rfl, ?_⟩
  refine ⟨rfl, rfl, hfd, Or.inl rfl, ?_, rfl, ?_⟩
  · intro m hm
    simp [Transport.batch, setClientConnected, Transport.init] at hm
  · simp [Transport.batch, setClientConnected, Transport.init]

/-- C2: after `setTransportFd` with a client connected, take any schedule of
`enqueueOutgoingMessageForClient` calls and steps of the output pump, all
writes succeeding and no shutdown, the serializer never emitting a null
byte.  The run is defined; whenever the pump has drained the queue, the
bytes written are the frames `wrap(M1) 0 ... wrap(Mk) 0` of the enqueued
messages in call order; and letting the pump run on alone for `k + 3` steps
or more always reaches that state. -/
theorem output_pump_writes_frames_in_order {J : Type} (env : Env J) (folly : Folly J)
    (fd : Int) (pipe : Int × Int) (sched : List (Action J)) (n : Nat)
    (hfd : 0 ≤ fd) (hnul : ∀ j, 0 ∉ folly.toJson j)
    (hsend : ∀ a ∈ sched, a.isSend = true) :
    ∃ t t',
      run env folly (.setClientConnected true :: .setTransportFd fd (some pipe) :: sched)
        Transport.init = some t ∧
      run env folly (.setClientConnected true :: .setTransportFd fd (some pipe) ::
        (sched ++ List.replicate n (.outputStep true))) Transport.init = some t' ∧
      (drained t = true → t.written = frames (wrappedOf folly sched)) ∧
      ((wrappedOf folly sched).length + 3 ≤ n →
        drained t' = true ∧ t'.written = frames (wrappedOf folly sched)) := by
  obtain ⟨t1, hatt, hok1⟩ := @outputOk_attached J fd pipe hfd
  obtain ⟨t, hrun, hok⟩ := run_sends env folly hnul sched t1 [] hsend hok1
  obtain ⟨t', hrun', hok', hle⟩ := run_pumps env folly _ n t hok
  rw [List.nil_append] at hok hok'
  refine ⟨t, t', ?_, ?_, ?_, ?_⟩
  · simp only [run, step, hatt]; exact hrun
  · simp only [run, step, hatt]
    rw [run_append, hrun]
    exact hrun'
  · exact written_of_drained _ t hok
  · intro hn
    have hbound := stepsToDrain_le _ t hok
    have hd := drained_of_zero _ t' hok' (by omega)
    exact ⟨hd, written_of_drained _ t' hok' hd⟩

/-- Witness for C2: two messages enqueued around a pump step, then five more
pump steps. -/
theorem output_pump_writes_frames_in_order_witness :
    ∃ t t',
      run demoEnv demoFolly (.setClientConnected true :: .setTransportFd 5 (some (6, 7)) ::
        [.enqueue 3 [1], .outputStep true, .enqueue 4 [2]]) Transport.init = some t ∧
      run demoEnv demoFolly (.setClientConnected true :: .setTransportFd 5 (some (6, 7)) ::
        ([.enqueue 3 [1], .outputStep true, .enqueue 4 [2]]
          ++ List.replicate 5 (.outputStep true))) Transport.init = some t' ∧
      (drained t = true → t.written
        = frames (wrappedOf demoFolly [.enqueue 3 [1], .outputStep true, .enqueue 4 [2]])) ∧
      ((wrappedOf demoFolly [.enqueue 3 [1], .outputStep true, .enqueue 4 [2]]).length + 3 ≤ 5 →
        drained t' = true ∧ t'.written
          = frames (wrappedOf demoFolly [.enqueue 3 [1], .outputStep true, .enqueue 4 [2]])) :=
  output_pump_writes_frames_in_order demoEnv demoFolly 5 (6, 7)
    [.enqueue 3 [1], .outputStep true, .enqueue 4 [2]] 5 (by decide)
    (by intro j; simp [demoFolly]) (by simp [Action.isSend])

/-! ## Disconnect reports -/

theorem pending_step {J : Type} (env : Env J) (folly : Folly J) (t t' : Transport J)
    (a : Action J) (ha : a.isAttach = false) (hs : step env folly t a = some t') :
    t'.inputReports + inputPending t' ≤ t.inputReports + inputPending t ∧
    t'.outputReports + outputPending t' ≤ t.outputReports + outputPending t ∧
    t'.disconnects + t.inputReports + t.outputReports
      = t.disconnects + t'.inputReports + t'.outputReports ∧
    (a.isFailedWrite = false → t'.outputReports = t.outputReports) := by
  cases a with
  | setTransportFd _ _ => simp [Action.isAttach] at ha
  | setClientConnected c =>
    simp only [step, Option.some.injEq] at hs
    subst hs
    exact ⟨le_refl _, le_refl _, rfl, fun _ => rfl⟩
  | enqueue message messageType =>
    simp only [step, Option.some.injEq] at hs
    subst hs
    unfold enqueueOutgoingMessageForClient
    split
    · exact ⟨le_refl _, le_refl _, rfl, fun _ => rfl⟩
    · exact ⟨le_refl _, le_refl _, rfl, fun _ => rfl⟩
  | enqueueTest message messageType =>
    simp only [step, Option.some.injEq] at hs
    subst hs
    unfold enqueueTest
    split
    · exact ⟨le_refl _, le_refl _, rfl, fun _ => rfl⟩
    · exact ⟨le_refl _, le_refl _, rfl, fun _ => rfl⟩
  | enqueuePush call =>
    simp only [step, Option.some.injEq] at hs
    subst hs
    unfold enqueuePush
    split
    · exact ⟨le_refl _, le_refl _, rfl, fun _ => rfl⟩
    · exact ⟨le_refl _, le_refl _, rfl, fun _ => rfl⟩
  | outputStep w =>
    simp only [step, Option.some.injEq] at hs
    subst hs
    unfold outputStep
    split
    · exact ⟨le_refl _, le_refl _, rfl, fun _ => rfl⟩
    · exact ⟨le_refl _, le_refl _, rfl, fun _ => rfl⟩
    · rename_i hth
      split <;> simp [inputPending, outputPending, hth]
    · rename_i hth
      split
      · simp [inputPending, outputPending, hth]
      · split <;> simp [inputPending, outputPending, hth]
    · rename_i hth
      simp [inputPending, outputPending, hth]
    · rename_i hth
      cases w with
      | true => simp [inputPending, outputPending, hth]
      | false =>
        simp [inputPending, outputPending, hth, onClientDisconnected, setClientConnected,
          Action.isFailedWrite]
        omega
  | inputStep ev =>
    simp only [step, Option.some.injEq] at hs
    subst hs
    unfold inputStep
    split
    · exact ⟨le_refl _, le_refl _, rfl, fun _ => rfl⟩
    · exact ⟨le_refl _, le_refl _, rfl, fun _ => rfl⟩
    · rename_i hth
      split <;> simp [inputPending, outputPending, hth]
    · rename_i p hth
      split
      · split
        · simp [inputPending, outputPending, hth]
        · simp [inputPending, outputPending, hth, inputThreadExit, onClientDisconnected,
            setClientConnected]
          omega
      · simp [inputPending, outputPending, hth, inputThreadExit, onClientDisconnected,
          setClientConnected]
        omega
  | peerSends bytes =>
    simp only [step, Option.some.injEq] at hs
    subst hs
    unfold peerSends
    split
    · rename_i p hth
      simp [inputPending, outputPending, hth]
    · rename_i hth
      refine ⟨?_, le_refl _, rfl, fun _ => rfl⟩
      simp only [inputPending]
      exact le_refl _
  | shutdownInputThread =>
    simp only [step, Option.some.injEq] at hs
    subst hs
    exact ⟨le_refl _, le_refl _, rfl, fun _ => rfl⟩
  | shutdownOutputThread =>
    simp only [step, Option.some.injEq] at hs
    subst hs
    exact ⟨le_refl _, le_refl _, rfl, fun _ => rfl⟩
  | shutdownFinish =>
    simp only [step, Option.some.injEq] at hs
    subst hs
    unfold shutdownFinish
    split
    · rename_i h1 h2
      simp [inputPending, outputPending, h1, h2]
    · exact ⟨le_refl _, le_refl _, rfl, fun _ => rfl⟩

theorem pending_run {J : Type} (env : Env J) (folly : Folly J) :
    ∀ (acts : List (Action J)) (t t' : Transport J),
      (∀ a ∈ acts, a.isAttach = false) → run env folly acts t = some t' →
      t'.inputReports + inputPending t' ≤ t.inputReports + inputPending t ∧
      t'.outputReports + outputPending t' ≤ t.outputReports + outputPending t ∧
      t'.disconnects + t.inputReports + t.outputReports
        = t.disconnects + t'.inputReports + t'.outputReports ∧
      ((∀ a ∈ acts, a.isFailedWrite = false) → t'.outputReports = t.outputReports) := by
  intro acts
  induction acts with
  | nil =>
    intro t t' _ hrun
    simp only [run, Option.some.injEq] at hrun
    subst hrun
    exact ⟨le_refl _, le_refl _, rfl, fun _ => rfl⟩
  | cons a rest ih =>
    intro t t' hacts hrun
    simp only [run] at hrun
    cases hstep : step env folly t a with
    | none => rw [hstep] at hrun; simp at hrun
    | some t1 =>
      rw [hstep] at hrun
      obtain ⟨h1, h2, h3, h4⟩ := pending_step env folly t t1 a (hacts a (by simp)) hstep
      obtain ⟨h5, h6, h7, h8⟩ := ih t1 t' (fun x hx => hacts x (by simp [hx])) hrun
      refine ⟨by omega, by omega, by omega, ?_⟩
      intro hw
      have h9 := h4 (hw a (by simp))
      have h10 := h8 (fun x hx => hw x (by simp [hx]))
      omega

/-- C6 (as the code has it): in a session, from `setTransportFd` on and with
no second `setTransportFd`, the input pump calls `onClientDisconnected` at
most once and the output pump calls it at most once, and not at all when no
write fails; every call comes from one of the two pumps, so the calls number
at most two, and at most one when no write fails. -/
theorem disconnect_reported_at_most_once_per_pump {J : Type} (env : Env J)
    (folly : Folly J) (fd : Int) (pipe : Option (Int × Int)) (acts : List (Action J))
    (t0 t : Transport J) (hacts : ∀ a ∈ acts, a.isAttach = false)
    (hrun : run env folly (.setTransportFd fd pipe :: acts) t0 = some t) :
    t.inputReports ≤ t0.inputReports + 1 ∧
    t.outputReports ≤ t0.outputReports + 1 ∧
    t.disconnects + t0.inputReports + t0.outputReports
      = t0.disconnects + t.inputReports + t.outputReports ∧
    t.disconnects ≤ t0.disconnects + 2 ∧
    ((∀ a ∈ acts, a.isFailedWrite = false) →
      t.outputReports = t0.outputReports ∧ t.disconnects ≤ t0.disconnects + 1) := by
  simp only [run, step] at hrun
  cases hatt : setTransportFd fd pipe t0 with
  | none => rw [hatt] at hrun; simp at hrun
  | some t1 =>
    rw [hatt] at hrun
    have hshape : t1.disconnects = t0.disconnects ∧ t1.inputReports = t0.inputReports ∧
        t1.outputReports = t0.outputReports ∧ inputPending t1 = 1 ∧
        outputPending t1 = 1 := by
      unfold setTransportFd at hatt
      split at hatt
      · cases pipe with
        | none => simp at hatt
        | some fds =>
          simp only [Option.some.injEq] at hatt
          subst hatt
          exact ⟨rfl, rfl, rfl, rfl, rfl⟩
      · simp at hatt
    obtain ⟨h1, h2, h3, h4⟩ := pending_run env folly acts t1 t hacts hrun
    obtain ⟨e1, e2, e3, e4, e5⟩ := hshape
    refine ⟨by omega, by omega, by omega, by omega, ?_⟩
    intro hw
    have := h4 hw
    exact ⟨by omega, by omega⟩

/-- Witness for C6: a session in which the peer hangs up. -/
theorem disconnect_reported_at_most_once_per_pump_witness :
    (run demoEnv demoFolly
      (.setTransportFd 5 (some (6, 7)) :: [.inputStep Event.hangup, .inputStep Event.hangup])
      Transport.init).map (fun t => (t.disconnects, t.inputReports, t.outputReports))
      = some (1, 1, 0) ∧
    (1 ≤ (Transport.init : Transport Nat).inputReports + 1 ∧
     0 ≤ (Transport.init : Transport Nat).outputReports + 1 ∧
     1 + (Transport.init : Transport Nat).inputReports
         + (Transport.init : Transport Nat).outputReports
       = (Transport.init : Transport Nat).disconnects + 1 + 0 ∧
     1 ≤ (Transport.init : Transport Nat).disconnects + 2 ∧
     ((∀ a ∈ [Action.inputStep Event.hangup, Action.inputStep Event.hangup],
        (a : Action Nat).isFailedWrite = false) →
      0 = (Transport.init : Transport Nat).outputReports ∧
      1 ≤ (Transport.init : Transport Nat).disconnects + 1)) :=
  ⟨rfl,
   disconnect_reported_at_most_once_per_pump demoEnv demoFolly 5 (some (6, 7))
     [.inputStep Event.hangup, .inputStep Event.hangup] Transport.init
     { transportFd := 5, abortPipeFd := (-1, 7), terminating := false,
       outgoingMessages := [], outputThread := .started, inputThread := .exited,
       clientConnected := false, inFlight := [], inbound := [], written := [],
       disconnects := 1, inputReports := 1, outputReports := 0 }
     (by simp [Action.isAttach]) rfl⟩

/-- C6 as stated fails: the peer goes away, a write fails and the output pump
calls `onClientDisconnected`; the input pump then sees the hangup and calls
it again: two reports in one session. -/
theorem disconnect_reported_twice :
    (run demoEnv demoFolly
      [.setClientConnected true, .setTransportFd 5 (some (6, 7)), .outputStep true,
       .inputStep Event.hangup, .enqueue 3 [1], .outputStep true, .outputStep false,
       .inputStep Event.hangup, .shutdownInputThread, .shutdownOutputThread,
       .shutdownFinish]
      Transport.init).map (fun t => (t.disconnects, t.transportFd)) = some (2, -1) := by
  decide

/-! ## The queue and the termination flag -/

/-- A call of `enqueueOutgoingMessageForClient` that nothing interrupts is its
test followed by its `push_back`. -/
theorem enqueue_is_test_then_push {J : Type} (folly : Folly J) (message : J)
    (messageType : List Nat) (t : Transport J) :
    enqueuePush t.inFlight.length (enqueueTest folly message messageType t)
      = enqueueOutgoingMessageForClient folly message messageType t := by
  unfold enqueueTest enqueueOutgoingMessageForClient enqueuePush
  by_cases hc : t.clientConnected = true
  · simp [hc, List.eraseIdx_append_of_length_le]
  · simp [hc]

/-- An `enqueueOutgoingMessageForClient` call that tested `clientConnected()`
before the disconnect and reaches its `push_back` after
`shutdownOutputThread` refills the queue, although the termination flag is
set and the client no longer counts as connected; the message is still
queued when the next connection attaches. -/
theorem queue_refilled_by_late_push :
    (run demoEnv demoFolly
      [.setClientConnected true, .setTransportFd 5 (some (6, 7)),
       .inputStep Event.hangup, .enqueueTest 3 [1], .inputStep Event.hangup,
       .shutdownInputThread, .shutdownOutputThread, .enqueuePush 0]
      Transport.init).map
        (fun t => (t.terminating, t.clientConnected, t.outgoingMessages))
      = some (true, false, [[6]]) ∧
    (run demoEnv demoFolly
      [.setClientConnected true, .setTransportFd 5 (some (6, 7)),
       .inputStep Event.hangup, .enqueueTest 3 [1], .inputStep Event.hangup,
       .shutdownInputThread, .shutdownOutputThread, .enqueuePush 0,
       .outputStep true, .outputStep true, .shutdownFinish,
       .setTransportFd 9 (some (10, 11))]
      Transport.init).map (fun t => (t.terminating, t.outgoingMessages, t.transportFd))
      = some (false, [[6]], 9) := by
  decide

theorem queue_step {J : Type} (env : Env J) (folly : Folly J) (t t' : Transport J)
    (a : Action J)
    (hguard : (match a with
      | .enqueue _ _ => !(t.terminating && t.clientConnected)
      | .enqueuePush call => !(t.terminating && decide (call < t.inFlight.length))
      | _ => true) = true)
    (hinv : t.terminating = true → t.outgoingMessages = [])
    (hs : step env folly t a = some t') :
    t'.terminating = true → t'.outgoingMessages = [] := by
  cases a with
  | setTransportFd fd pipe =>
    simp only [step] at hs
    unfold setTransportFd at hs
    split at hs
    · cases pipe with
      | none => simp at hs
      | some fds =>
        simp only [Option.some.injEq] at hs
        subst hs
        intro h
        simp at h
    · simp at hs
  | setClientConnected c =>
    simp only [step, Option.some.injEq] at hs
    subst hs
    exact hinv
  | enqueue message messageType =>
    simp only [step, Option.some.injEq] at hs
    subst hs
    unfold enqueueOutgoingMessageForClient
    split
    · exact hinv
    · rename_i hc
      intro hterm
      have hterm' : t.terminating = true := hterm
      simp [hterm'] at hguard
      simp [hguard] at hc
  | enqueueTest message messageType =>
    simp only [step, Option.some.injEq] at hs
    subst hs
    unfold enqueueTest
    split
    · exact hinv
    · exact hinv
  | enqueuePush call =>
    simp only [step, Option.some.injEq] at hs
    subst hs
    unfold enqueuePush
    split
    · rename_i wrapped hget
      intro hterm
      have hterm' : t.terminating = true := hterm
      have hlt : call < t.inFlight.length := by
        by_contra hge
        rw [List.getElem?_eq_none (by omega)] at hget
        simp at hget
      simp [hterm', hlt] at hguard
    · exact hinv
  | outputStep w =>
    simp only [step, Option.some.injEq] at hs
    subst hs
    unfold outputStep
    split
    · exact hinv
    · exact hinv
    · split <;> exact hinv
    · split
      · exact hinv
      · split
        · exact hinv
        · intro _; rfl
    · exact hinv
    · split
      · exact hinv
      · exact hinv
  | inputStep ev =>
    simp only [step, Option.some.injEq] at hs
    subst hs
    unfold inputStep
    split
    · exact hinv
    · exact hinv
    · split <;> exact hinv
    · split
      · split
        · exact hinv
        · exact hinv
      · exact hinv
  | peerSends bytes =>
    simp only [step, Option.some.injEq] at hs
    subst hs
    unfold peerSends
    split <;> exact hinv
  | shutdownInputThread =>
    simp only [step, Option.some.injEq] at hs
    subst hs
    exact hinv
  | shutdownOutputThread =>
    simp only [step, Option.some.injEq] at hs
    subst hs
    intro _
    rfl
  | shutdownFinish =>
    simp only [step, Option.some.injEq] at hs
    subst hs
    unfold shutdownFinish
    split <;> exact hinv

theorem queue_run {J : Type} (env : Env J) (folly : Folly J) :
    ∀ (acts : List (Action J)) (t t' : Transport J),
      noPushWhileTerminating env folly acts t = true →
      (t.terminating = true → t.outgoingMessages = []) →
      run env folly acts t = some t' →
      (t'.terminating = true → t'.outgoingMessages = []) := by
  intro acts
  induction acts with
  | nil =>
    intro t t' _ hinv hrun
    simp only [run, Option.some.injEq] at hrun
    subst hrun
    exact hinv
  | cons a rest ih =>
    intro t t' hg hinv hrun
    simp only [run] at hrun
    simp only [noPushWhileTerminating, Bool.and_eq_true] at hg
    cases hstep : step env folly t a with
    | none => rw [hstep] at hrun; simp at hrun
    | some t1 =>
      rw [hstep] at hrun hg
      exact ih t1 t' hg.2 (queue_step env folly t t1 a hg.1 hinv hstep) hrun

/-- C8 (as the code has it): take any schedule from a new transport, the
`clientConnected()` test and the `push_back` of an enqueue call being steps
of their own.  If no enqueue call executes its `push_back` while the
termination flag is set, then in the state reached a set termination flag
implies an empty queue, and a `setTransportFd` in that state clears the flag
and starts the new connection with an empty queue.  The `push_back` itself
asks neither for the flag nor for the connection: an in-flight call appends
its frame in every state. -/
theorem queue_empty_while_terminating {J : Type} (env : Env J) (folly : Folly J)
    (acts : List (Action J)) (t : Transport J)
    (hquiet : noPushWhileTerminating env folly acts Transport.init = true)
    (hrun : run env folly acts Transport.init = some t) :
    (t.terminating = true → t.outgoingMessages = []) ∧
    (∀ fd pipe t', t.terminating = true → setTransportFd fd pipe t = some t' →
      t'.terminating = false ∧ t'.outgoingMessages = []) ∧
    (∀ call wrapped, t.inFlight[call]? = some wrapped →
      (enqueuePush call t).outgoingMessages = t.outgoingMessages ++ [wrapped] ∧
      (enqueuePush call t).terminating = t.terminating) := by
  have hinv := queue_run env folly acts Transport.init t hquiet
    (by intro h; simp [Transport.init] at h) hrun
  refine ⟨hinv, ?_, ?_⟩
  · intro fd pipe t' hterm hatt
    unfold setTransportFd at hatt
    split at hatt
    · cases pipe with
      | none => simp at hatt
      | some fds =>
        simp only [Option.some.injEq] at hatt
        subst hatt
        exact ⟨rfl, hinv hterm⟩
    · simp at hatt
  · intro call wrapped hget
    unfold enqueuePush
    rw [hget]
    exact ⟨rfl, rfl⟩

/-- Witness for C8: one call is enqueued and written, a second call passes
its test and pushes before the transport is shut down. -/
theorem queue_empty_while_terminating_witness :
    (run demoEnv demoFolly
      [.setClientConnected true, .setTransportFd 5 (some (6, 7)), .enqueue 3 [1],
       .outputStep true, .outputStep true, .outputStep true, .enqueueTest 4 [2],
       .enqueuePush 0, .shutdownInputThread, .shutdownOutputThread]
      Transport.init).map (fun t => (t.terminating, t.outgoingMessages, t.written))
      = some (true, [], [6, 0]) ∧
    ∃ t : Transport Nat,
      (t.terminating = true → t.outgoingMessages = []) ∧
      (∀ fd pipe t', t.terminating = true → setTransportFd fd pipe t = some t' →
        t'.terminating = false ∧ t'.outgoingMessages = []) ∧
      (∀ call wrapped, t.inFlight[call]? = some wrapped →
        (enqueuePush call t).outgoingMessages = t.outgoingMessages ++ [wrapped] ∧
        (enqueuePush call t).terminating = t.terminating) :=
  ⟨by decide,
   ⟨_, queue_empty_while_terminating demoEnv demoFolly
    [.setClientConnected true, .setTransportFd 5 (some (6, 7)), .enqueue 3 [1],
     .outputStep true, .outputStep true, .outputStep true, .enqueueTest 4 [2],
     .enqueuePush 0, .shutdownInputThread, .shutdownOutputThread]
    _ (by decide) rfl⟩⟩

/-- C8 as stated fails: after `shutdownOutputThread` has set the flag and
cleared the queue, an enqueue call that still finds the client connected adds
a message; the message survives the shutdown, and the next `setTransportFd`
clears the flag over a non-empty queue. -/
theorem queue_refilled_after_shutdown :
    (run demoEnv demoFolly
      [.setClientConnected true, .setTransportFd 5 (some (6, 7)),
       .shutdownInputThread, .shutdownOutputThread, .enqueue 3 [1]]
      Transport.init).map (fun t => (t.terminating, t.outgoingMessages))
      = some (true, [[6]]) ∧
    (run demoEnv demoFolly
      [.setClientConnected true, .setTransportFd 5 (some (6, 7)),
       .shutdownInputThread, .shutdownOutputThread, .enqueue 3 [1],
       .inputStep Event.abort, .inputStep Event.abort, .outputStep true, .outputStep true,
       .shutdownFinish, .setClientConnected true, .setTransportFd 9 (some (10, 11))]
      Transport.init).map (fun t => (t.terminating, t.outgoingMessages, t.transportFd))
      = some (false, [[6]], 9) := by
  decide

/-! ## User messages -/

theorem enqueueOutgoingUserMessage_connected {J : Type} (folly : Folly J)
    (message level : List Nat) (t : Transport J) (hc : t.clientConnected = true) :
    enqueueOutgoingUserMessage folly message level t =
      { t with outgoingMessages := t.outgoingMessages ++
          [folly.toJson
            (folly.set
              (folly.set (folly.set folly.object keyEvent (folly.ofString EventTypeOutput))
                keyBody
                (folly.set (folly.set folly.object keyCategory (folly.ofString level))
                  keyOutput (folly.ofString message)))
              keyType (folly.ofString MessageTypeEvent))] } := by
  unfold enqueueOutgoingUserMessage enqueueOutgoingEventMessage
  exact enqueue_connected folly t _ _ hc

end VSDebug
